import Mathlib

/-
Shallow embedding of the annotation-conversion tool (interactive_converter.py).

Conventions used throughout:
* Python ints are modelled as `Int` (or `Nat` for counters that never go
  negative), Python floats as `Rat` (the inputs exercised here are short
  decimal literals whose arithmetic is exact in binary doubles as well),
  `int(...)` truncation toward zero as `pyInt`, `round(...)` (Python 3
  half-to-even) as `pyRound`, and `//` (Python floor division) as `Int.fdiv`.
* Directory listings are lists of file names; file contents are passed in
  already decoded (a `none` stands for the exception branch of a failed
  open/parse).  Python exceptions that escape a function are modelled with
  `Except`.
* Python `dict`s that are only extended (never overwritten) are association
  lists; `dictInsert` keeps the overwrite-in-place semantics for the one
  dict (`image_id_map`) where a duplicate key is conceivable.
* Field name note: the Python attribute `annotations` is rendered as `anns`
  (and `unmatched_annotations` as `unmatched_anns`) in the Lean structures.
-/

-- ===================== small Python-semantics helpers =====================

attribute [local semireducible] Rat.mul Rat.add Rat.sub Rat.inv

/-- Python `int(x)` on a real value: truncation toward zero. -/
def pyInt (q : ℚ) : ℤ := Int.tdiv q.num (q.den : ℤ)

/-- Python 3 `round(x)` on a real value: round half to even. -/
def pyRound (q : ℚ) : ℤ :=
  let f := ⌊q⌋
  let r := q - (f : ℚ)
  if r < 1/2 then f
  else if 1/2 < r then f + 1
  else if f % 2 = 0 then f else f + 1

/-- Value of a digit character. -/
def digitVal (c : Char) : ℕ := c.toNat - ('0').toNat

/-- Value of a digit string (most significant first). -/
def digitsVal (cs : List Char) : ℕ := cs.foldl (fun n c => 10 * n + digitVal c) 0

/-- A nonempty all-digit character list, parsed; otherwise `none`. -/
def parseNatChars (cs : List Char) : Option ℕ :=
  if cs.isEmpty then none
  else if cs.all (fun c => c.isDigit) then some (digitsVal cs) else none

/-- Python `int(s)` on a token: optional sign followed by digits. -/
def parseIntChars (cs : List Char) : Option ℤ :=
  match cs with
  | '-' :: rest => (parseNatChars rest).map (fun n => -(n : ℤ))
  | '+' :: rest => (parseNatChars rest).map (fun n => (n : ℤ))
  | rest => (parseNatChars rest).map (fun n => (n : ℤ))

/-- Python `int(s)`. -/
def parseIntStr (s : String) : Option ℤ := parseIntChars s.data

/-- Unsigned decimal mantissa: `d`, `d.`, `.d` or `d.d`. -/
def parseMantissa (cs : List Char) : Option ℚ :=
  let ip := cs.takeWhile (fun c => ¬ c = '.')
  match cs.dropWhile (fun c => ¬ c = '.') with
  | [] => (parseNatChars ip).map (fun n => (n : ℚ))
  | _ :: frac =>
    if frac.contains '.' then none
    else if ip.isEmpty && frac.isEmpty then none
    else if ip.all (fun c => c.isDigit) && frac.all (fun c => c.isDigit) then
      some ((digitsVal ip : ℚ) + (digitsVal frac : ℚ) / ((10 : ℚ) ^ frac.length))
    else none

/-- Signed decimal mantissa. -/
def parseSignedMantissa (cs : List Char) : Option ℚ :=
  match cs with
  | '-' :: rest => (parseMantissa rest).map (fun q => -q)
  | '+' :: rest => parseMantissa rest
  | rest => parseMantissa rest

/-- Python `float(s)` on a token, for decimal notation with an optional
exponent (the notations the tool's data actually uses). -/
def parseFloatChars (cs : List Char) : Option ℚ :=
  let mant := cs.takeWhile (fun c => ¬ c = 'e' ∧ ¬ c = 'E')
  match cs.dropWhile (fun c => ¬ c = 'e' ∧ ¬ c = 'E') with
  | [] => parseSignedMantissa mant
  | _ :: ex =>
    match parseSignedMantissa mant, parseIntChars ex with
    | some m, some e => some (m * (10 : ℚ) ^ e)
    | _, _ => none

/-- Python `float(s)`. -/
def parseFloatStr (s : String) : Option ℚ := parseFloatChars s.data

/-- Python `s.strip()`. -/
def pyStrip (s : String) : String :=
  String.mk (((s.data.dropWhile (fun c => c.isWhitespace)).reverse.dropWhile
    (fun c => c.isWhitespace)).reverse)

/-- Helper for `pySplit`: accumulate the current word (reversed). -/
def pyWordsAux : List Char → List Char → List String
  | [], acc => if acc.isEmpty then [] else [String.mk acc.reverse]
  | c :: cs, acc =>
    if c.isWhitespace then
      if acc.isEmpty then pyWordsAux cs [] else String.mk acc.reverse :: pyWordsAux cs []
    else pyWordsAux cs (c :: acc)

/-- Python `s.split()`: split on whitespace runs, no empty tokens. -/
def pySplit (s : String) : List String := pyWordsAux s.data []

/-- Python `s.lower()` (ASCII case folding, which covers the file names used). -/
def strLower (s : String) : String := String.mk (s.data.map Char.toLower)

/-- Python `s.endswith(suffix)`. -/
def strEndsWith (s suffix : String) : Bool := suffix.data.isSuffixOf s.data

/-- Python `os.path.basename`: the part after the last `/`. -/
def pyBasename (s : String) : String :=
  String.mk ((s.data.reverse.takeWhile (fun c => ¬ c = '/')).reverse)

/-- Index of the last occurrence of `c`. -/
def lastIndexOf (c : Char) (cs : List Char) : Option ℕ :=
  cs.enum.foldl (fun acc p => if p.2 = c then some p.1 else acc) none

/-- Python `os.path.splitext(s)[0]`: drop the extension after the last dot,
provided the dot is inside the basename and preceded there by a non-dot. -/
def splitextRoot (s : String) : String :=
  let cs := s.data
  match lastIndexOf '.' cs with
  | none => s
  | some d =>
    let start := match lastIndexOf '/' cs with
      | none => 0
      | some si => si + 1
    if start ≤ d ∧ ((List.range' start (d - start)).any (fun i => ¬ cs.getD i '.' = '.')) then
      String.mk (cs.take d)
    else s

-- ===================== hk deepest-tag resolution (C7) =====================

/-- A node of an hk annotation tree: `{tagName, children}`
(`item.get('tagName','')` and `item.get('children',[])` folded into fields). -/
inductive HkNode where
  | mk (tagName : String) (children : List HkNode)

/-- `find_deepest_tag` from `_get_deepest_category_name`: if there are no
children return the node's `tagName`; otherwise collect each child's deepest
tag, keep the truthy (nonempty) ones, and return the first, falling back to
the node's own `tagName`. -/
def find_deepest_tag : HkNode → String
  | .mk tagName [] => tagName
  | .mk tagName (c :: cs) =>
    match ((c :: cs).attach.map (fun x => find_deepest_tag x.1)).filter
        (fun t => ¬ t = "") with
    | [] => tagName
    | t :: _ => t
decreasing_by
  have h1 := List.sizeOf_lt_of_mem x.2
  simp only [HkNode.mk.sizeOf_spec]
  omega

/-- The spec's description of the deepest-tag resolution: descend the
children depth-first and return the tag of the first branch that yields a
nonempty tag, falling back to the current node's `tagName` when there are no
children or no branch yields one. -/
def specDeepestTag : HkNode → String
  | .mk tagName children =>
    match (children.attach.map (fun x => specDeepestTag x.1)).findSome?
        (fun r => if r = "" then none else some r) with
    | some r => r
    | none => tagName
decreasing_by
  have h1 := List.sizeOf_lt_of_mem x.2
  simp only [HkNode.mk.sizeOf_spec]
  omega

-- ===================== cropper box expansion (C8) =====================

/-- `ImageCropper._apply_expansion_and_bounds`, translated statement by
statement; Python `//` is floor division (`Int.fdiv`), `int(...)` on the
scaled floats is `pyInt`. -/
def apply_expansion_and_bounds (bbox : ℤ × ℤ × ℤ × ℤ) (img_w img_h : ℤ)
    (ratio : ℚ) : ℤ × ℤ × ℤ × ℤ :=
  let x := bbox.1
  let y := bbox.2.1
  let w := bbox.2.2.1
  let h := bbox.2.2.2
  if ratio = 1 then (x, y, w, h)
  else
    let new_w := pyInt ((w : ℚ) * ratio)
    let new_h := pyInt ((h : ℚ) * ratio)
    let center_x := x + Int.fdiv w 2
    let center_y := y + Int.fdiv h 2
    let nx0 := center_x - Int.fdiv new_w 2
    let ny0 := center_y - Int.fdiv new_h 2
    let nx1 := if nx0 < 0 then 0 else nx0
    let ny1 := if ny0 < 0 then 0 else ny0
    let nw1 := if nx1 + new_w > img_w then img_w - nx1 else new_w
    let nh1 := if ny1 + new_h > img_h then img_h - ny1 else new_h
    (nx1, ny1, nw1, nh1)

/-- The claim's description of the expansion: identical algorithm with the
integer centers taken by truncating division. -/
def specExpand (bbox : ℤ × ℤ × ℤ × ℤ) (img_w img_h : ℤ)
    (ratio : ℚ) : ℤ × ℤ × ℤ × ℤ :=
  let x := bbox.1
  let y := bbox.2.1
  let w := bbox.2.2.1
  let h := bbox.2.2.2
  if ratio = 1 then (x, y, w, h)
  else
    let new_w := pyInt ((w : ℚ) * ratio)
    let new_h := pyInt ((h : ℚ) * ratio)
    let center_x := x + Int.tdiv w 2
    let center_y := y + Int.tdiv h 2
    let nx0 := center_x - Int.tdiv new_w 2
    let ny0 := center_y - Int.tdiv new_h 2
    let nx1 := if nx0 < 0 then 0 else nx0
    let ny1 := if ny0 < 0 then 0 else ny0
    let nw1 := if nx1 + new_w > img_w then img_w - nx1 else new_w
    let nh1 := if ny1 + new_h > img_h then img_h - ny1 else new_h
    (nx1, ny1, nw1, nh1)

-- ===================== unified store (AnnotationConverter) =====================

/-- `{'id':…, 'name':…}` rows of `self.categories`. -/
structure UnifiedCategory where
  id : ℕ
  name : String
deriving DecidableEq

/-- `{'file_name':…, 'id':…, 'width':…, 'height':…}` rows of `self.images`. -/
structure UnifiedImage where
  file_name : String
  id : ℕ
  width : ℕ
  height : ℕ
deriving DecidableEq

/-- A `bbox` list `[x, y, w, h]`; entries are rationals because the hk parser
stores raw JSON numbers while the other parsers store ints. -/
structure BBox where
  x : ℚ
  y : ℚ
  w : ℚ
  h : ℚ
deriving DecidableEq

/-- `{'id':…, 'image_id':…, 'category_id':…, 'bbox':…, 'area':…}` rows of
`self.annotations` (rendered `anns` here). -/
structure UnifiedAnn where
  id : ℕ
  image_id : ℕ
  category_id : ℕ
  bbox : BBox
  area : ℚ
deriving DecidableEq

/-- The mutable state of `AnnotationConverter` (dicts as association lists;
`img2id` is initialized by the source and never touched afterwards). -/
structure Store where
  categories : List UnifiedCategory
  images : List UnifiedImage
  anns : List UnifiedAnn
  cat2id : List (String × ℕ)
  img2id : List (String × ℕ)
  img_count : ℕ
  cat_count : ℕ
  ann_count : ℕ
deriving DecidableEq

/-- The state right after `__init__` / `reset`. -/
def emptyStore : Store := ⟨[], [], [], [], [], 0, 0, 0⟩

/-- Python `k in d` for a dict-as-association-list. -/
def listHasKey {α β : Type} [DecidableEq α] (m : List (α × β)) (k : α) : Bool :=
  m.any (fun p => p.1 = k)

/-- Python `d[k]` (`none` when the key is absent). -/
def listLookup {α β : Type} [DecidableEq α] (m : List (α × β)) (k : α) : Option β :=
  (m.find? (fun p => p.1 = k)).map (fun p => p.2)

/-- Python `d[k] = v`: overwrite in place, else append (insertion order). -/
def dictInsert {α β : Type} [DecidableEq α] (m : List (α × β)) (k : α) (v : β) :
    List (α × β) :=
  if listHasKey m k then m.map (fun p => if p.1 = k then (k, v) else p)
  else m ++ [(k, v)]

/-- The category-registration-plus-annotation-append block shared verbatim by
all five `_process_*_file` parsers: register `category_name` on first sight
(id `cat_count`), then append an annotation with id `ann_count` and
`area = w * h`. -/
def addRecord (st : Store) (img_id : ℕ) (category_name : String) (bb : BBox) :
    Store :=
  let st1 := if listHasKey st.cat2id category_name then st
    else { st with
      cat2id := st.cat2id ++ [(category_name, st.cat_count)],
      categories := st.categories ++ [⟨st.cat_count, category_name⟩],
      cat_count := st.cat_count + 1 }
  { st1 with
    anns := st1.anns ++ [⟨st1.ann_count, img_id,
      (listLookup st1.cat2id category_name).getD 0, bb, bb.w * bb.h⟩],
    ann_count := st1.ann_count + 1 }

-- ===================== the five format parsers =====================

/-- One loop iteration of `_process_yolo_file`: strip, skip empty lines,
require exactly 5 tokens, parse int + 4 floats (a failure skips the line),
denormalize by image size, convert center form to corner form with `int(…)`
truncation, resolve the category name through the class mapping. -/
def yoloLineStep (img_w img_h : ℕ) (cm : List (ℤ × String)) (img_id : ℕ)
    (st : Store) (line : String) : Store :=
  let stripped := pyStrip line
  if stripped = "" then st
  else
    match pySplit stripped with
    | [p0, p1, p2, p3, p4] =>
      match parseIntStr p0, parseFloatStr p1, parseFloatStr p2,
          parseFloatStr p3, parseFloatStr p4 with
      | some class_id, some xc, some yc, some wq, some hq =>
        let x_center := xc * (img_w : ℚ)
        let y_center := yc * (img_h : ℚ)
        let wpx := wq * (img_w : ℚ)
        let hpx := hq * (img_h : ℚ)
        let x := pyInt (x_center - wpx / 2)
        let y := pyInt (y_center - hpx / 2)
        let wi := pyInt wpx
        let hi := pyInt hpx
        let category_name :=
          match listLookup cm class_id with
          | some n => n
          | none => "class_" ++ toString class_id
        addRecord st img_id category_name ⟨(x : ℚ), (y : ℚ), (wi : ℚ), (hi : ℚ)⟩
      | _, _, _, _, _ => st
    | _ => st

/-- `_process_yolo_file` over the lines of the annotation file. -/
def process_yolo_file (st : Store) (img_id : ℕ) (img_w img_h : ℕ)
    (cm : List (ℤ × String)) (lines : List String) : Store :=
  lines.foldl (yoloLineStep img_w img_h cm img_id) st

/-- A well-formed `<object>` element of a VOC file: `name` and the four
`bndbox` children, the latter still as the floats `float(…)` produced. -/
structure VocObj where
  name : String
  xmin : ℚ
  ymin : ℚ
  xmax : ℚ
  ymax : ℚ

/-- One loop iteration of `_process_voc_file` (`none` is an object whose
parsing raised and was skipped): truncate the four floats to ints, take
`w = xmax - xmin`, `h = ymax - ymin`. -/
def vocObjStep (img_id : ℕ) (st : Store) (obj : Option VocObj) : Store :=
  match obj with
  | none => st
  | some o =>
    let xmin := pyInt o.xmin
    let ymin := pyInt o.ymin
    let xmax := pyInt o.xmax
    let ymax := pyInt o.ymax
    let w := xmax - xmin
    let h := ymax - ymin
    addRecord st img_id o.name ⟨(xmin : ℚ), (ymin : ℚ), (w : ℚ), (h : ℚ)⟩

/-- `_process_voc_file`; `none` is a whole-file parse failure (logged, zero
records). -/
def process_voc_file (st : Store) (img_id : ℕ)
    (objs : Option (List (Option VocObj))) : Store :=
  match objs with
  | none => st
  | some l => l.foldl (vocObjStep img_id) st

/-- One entry of a single-image COCO `annotations` list: `category_name`,
`category_id` (absent means the `.get` default 0) and `bbox`. -/
structure CocoAnnJson where
  category_name : Option String
  category_id : Option ℤ
  bbox : List ℚ

/-- One loop iteration of `_process_coco_single_file`: falsy `category_name`
falls back to `class_<category_id>`; a bbox that is not 4 numbers is
skipped; entries are truncated with `int(…)`. -/
def cocoAnnStep (img_id : ℕ) (st : Store) (it : Option CocoAnnJson) : Store :=
  match it with
  | none => st
  | some a =>
    let category_name :=
      match a.category_name with
      | some n => if n = "" then "class_" ++ toString (a.category_id.getD 0) else n
      | none => "class_" ++ toString (a.category_id.getD 0)
    match a.bbox with
    | [b1, b2, b3, b4] =>
      addRecord st img_id category_name
        ⟨(pyInt b1 : ℚ), (pyInt b2 : ℚ), (pyInt b3 : ℚ), (pyInt b4 : ℚ)⟩
    | _ => st

/-- `_process_coco_single_file`; `none` is a whole-file parse failure. -/
def process_coco_single_file (st : Store) (img_id : ℕ)
    (items : Option (List (Option CocoAnnJson))) : Store :=
  match items with
  | none => st
  | some l => l.foldl (cocoAnnStep img_id) st

/-- One entry of a LabelMe `shapes` list. -/
structure LabelmeShape where
  label : Option String
  points : List (ℚ × ℚ)

/-- One loop iteration of `_process_labelme_file`: falsy label skipped,
exactly two points required, `int(…)` truncation, then min/max
normalization of the two corners. -/
def labelmeShapeStep (img_id : ℕ) (st : Store) (it : Option LabelmeShape) : Store :=
  match it with
  | none => st
  | some s =>
    match s.label with
    | none => st
    | some lbl =>
      if lbl = "" then st
      else
        match s.points with
        | [(px1, py1), (px2, py2)] =>
          let x1 := pyInt px1
          let y1 := pyInt py1
          let x2 := pyInt px2
          let y2 := pyInt py2
          let x_min := min x1 x2
          let x_max := max x1 x2
          let y_min := min y1 y2
          let y_max := max y1 y2
          addRecord st img_id lbl
            ⟨(x_min : ℚ), (y_min : ℚ), ((x_max - x_min : ℤ) : ℚ), ((y_max - y_min : ℤ) : ℚ)⟩
        | _ => st

/-- `_process_labelme_file`; `none` is a whole-file parse failure. -/
def process_labelme_file (st : Store) (img_id : ℕ)
    (shapes : Option (List (Option LabelmeShape))) : Store :=
  match shapes with
  | none => st
  | some l => l.foldl (labelmeShapeStep img_id) st

/-- The first element of a decoded `tagInfo` array, keeping its `coord`
list. -/
structure HkCoordInfo where
  coord : List (ℚ × ℚ)

/-- One entry of an hk `list`: the tag tree plus the decoded `tagInfo`
(`none` stands for a missing/empty `tagInfo` or a decode error). -/
structure HkItem where
  node : HkNode
  tagInfo : Option (List HkCoordInfo)

/-- One loop iteration of `_process_hk_file`: deepest-tag category name
(falsy skipped), first `tagInfo` element's `coord` must be two points,
min/max normalization; the bbox keeps the raw JSON numbers (no `int`). -/
def hkItemStep (img_id : ℕ) (st : Store) (it : Option HkItem) : Store :=
  match it with
  | none => st
  | some item =>
    let category_name := find_deepest_tag item.node
    if category_name = "" then st
    else
      match item.tagInfo with
      | none => st
      | some [] => st
      | some (ci :: _) =>
        match ci.coord with
        | [(qx1, qy1), (qx2, qy2)] =>
          let x_min := min qx1 qx2
          let x_max := max qx1 qx2
          let y_min := min qy1 qy2
          let y_max := max qy1 qy2
          addRecord st img_id category_name
            ⟨x_min, y_min, x_max - x_min, y_max - y_min⟩
        | _ => st

/-- `_process_hk_file`; `none` is a whole-file parse failure. -/
def process_hk_file (st : Store) (img_id : ℕ)
    (items : Option (List (Option HkItem))) : Store :=
  match items with
  | none => st
  | some l => l.foldl (hkItemStep img_id) st

-- ===================== conversion pipeline =====================

/-- What `Image.open` supplies for a matched image file. -/
structure ImgInfo where
  file_name : String
  width : ℕ
  height : ℕ

/-- The decoded content of one annotation file, tagged by format. -/
inductive FormatInput where
  | yolo (cm : List (ℤ × String)) (lines : List String)
  | voc (objs : Option (List (Option VocObj)))
  | coco_single (items : Option (List (Option CocoAnnJson)))
  | labelme (shapes : Option (List (Option LabelmeShape)))
  | hk (items : Option (List (Option HkItem)))

/-- The format dispatch at the end of `_process_file_pair`. -/
def processAnns (st : Store) (img_id : ℕ) (img_w img_h : ℕ) :
    FormatInput → Store
  | .yolo cm lines => process_yolo_file st img_id img_w img_h cm lines
  | .voc objs => process_voc_file st img_id objs
  | .coco_single items => process_coco_single_file st img_id items
  | .labelme shapes => process_labelme_file st img_id shapes
  | .hk items => process_hk_file st img_id items

/-- Appending one image row with id `img_count` (shared by
`_process_file_pair` and the unmatched-images loop of `convert_to_coco`). -/
def addImage (st : Store) (im : ImgInfo) : Store :=
  { st with
    images := st.images ++ [⟨im.file_name, st.img_count, im.width, im.height⟩],
    img_count := st.img_count + 1 }

/-- A matched (annotation file, image file) pair, already decoded. -/
structure PairInput where
  img : ImgInfo
  input : FormatInput

/-- `_process_file_pair`: append the image, remember `current_img_id`, then
process the annotation file against it. -/
def process_file_pair (st : Store) (p : PairInput) : Store :=
  processAnns (addImage st p.img) st.img_count p.img.width p.img.height p.input

/-- The unmatched-images loop of `convert_to_coco`. -/
def addUnmatchedImages (st : Store) (imgs : List ImgInfo) : Store :=
  imgs.foldl addImage st

/-- The matched-pairs loop of `convert_to_coco`, from a fresh store. -/
def runPairs (ps : List PairInput) (st : Store) : Store :=
  ps.foldl process_file_pair st

/-- The store right before `_save_coco`: pairs processed from a reset store,
then the unmatched images appended when the flag is set and any exist. -/
def convertStage2 (ps : List PairInput) (unmatched : List ImgInfo)
    (include_flag : Bool) : Store :=
  if include_flag ∧ ¬ unmatched.isEmpty then
    addUnmatchedImages (runPairs ps emptyStore) unmatched
  else runPairs ps emptyStore

-- ----- pipeline invariants (the claims' invariant language) -----

/-- Invariant I1 of the data model: every annotation's `image_id` references
an image currently in the store. -/
def StoreInv (st : Store) : Prop :=
  ∀ a ∈ st.anns, ∃ im ∈ st.images, im.id = a.image_id

/-- The category-registration invariant: ids are `0 … cat_count-1` in
insertion order, names are distinct, and `cat2id` pairs each category's
name with its id. -/
def CatInv (st : Store) : Prop :=
  st.categories.map (fun c => c.id) = List.range st.cat_count ∧
  (st.categories.map (fun c => c.name)).Nodup ∧
  st.cat2id = st.categories.map (fun c => (c.name, c.id))

/-- Image ids are exactly `0 … img_count-1` in discovery order. -/
def ImgSeq (st : Store) : Prop :=
  st.images.map (fun im => im.id) = List.range st.img_count

/-- The conjunction maintained along the conversion pipeline. -/
def PipeInv (st : Store) : Prop := ImgSeq st ∧ StoreInv st ∧ CatInv st

/-- How a store evolves under an annotation-processing step for image
`img_id`: images and the image counter are untouched, and every appended
annotation references `img_id`. -/
def ProcExt (img_id : ℕ) (s s2 : Store) : Prop :=
  s2.images = s.images ∧ s2.img_count = s.img_count ∧
  ∃ new, s2.anns = s.anns ++ new ∧ ∀ x ∈ new, x.image_id = img_id

/-- Every per-item parser step either skips the item or is one `addRecord`
call for the current image. -/
def StepShape {α : Type} (img_id : ℕ) (step : Store → α → Store) : Prop :=
  ∀ s it, step s it = s ∨ ∃ n b, step s it = addRecord s img_id n b

-- ===================== quality filter =====================

/-- `bbox[2] * bbox[3]`, the area recomputed by the quality check. -/
def annArea (a : UnifiedAnn) : ℚ := a.bbox.w * a.bbox.h

/-- The ids of the `small_boxes` collected by
`_check_and_filter_small_boxes` (area strictly below the threshold). -/
def smallBoxIds (st : Store) (thr : ℤ) : List ℕ :=
  (st.anns.filter (fun a => annArea a < (thr : ℚ))).map (fun a => a.id)

/-- `valid_annotations`: annotations whose id is not in `remove_ann_ids`. -/
def validAnns (st : Store) (thr : ℤ) : List UnifiedAnn :=
  st.anns.filter (fun a => ¬ a.id ∈ smallBoxIds st thr)

/-- The image loop of `_remove_small_boxes`: keep an image iff its (old) id
is referenced by a surviving annotation, renumber kept images
`1, 2, …` in order, and record old→new in `image_id_map`. -/
def renumberImagesGo (validImgIds : List ℕ) :
    List UnifiedImage → List UnifiedImage → List (ℕ × ℕ) →
    List UnifiedImage × List (ℕ × ℕ)
  | [], acc, m => (acc, m)
  | img :: rest, acc, m =>
    if img.id ∈ validImgIds then
      renumberImagesGo validImgIds rest (acc ++ [{img with id := acc.length + 1}])
        (dictInsert m img.id (acc.length + 1))
    else renumberImagesGo validImgIds rest acc m

/-- The annotation loop of `_remove_small_boxes`: keep a surviving
annotation iff its `image_id` is a key of `image_id_map`, rewrite the
`image_id` through the map and renumber `1, 2, …` in order. -/
def renumberAnnsGo (m : List (ℕ × ℕ)) :
    List UnifiedAnn → List UnifiedAnn → List UnifiedAnn
  | [], acc => acc
  | a :: rest, acc =>
    if listHasKey m a.image_id then
      renumberAnnsGo m rest (acc ++ [{a with
        image_id := (listLookup m a.image_id).getD 0, id := acc.length + 1}])
    else renumberAnnsGo m rest acc

/-- `_remove_small_boxes`. -/
def remove_small_boxes (st : Store) (thr : ℤ) : Store :=
  let valid := validAnns st thr
  let pr := renumberImagesGo (valid.map (fun a => a.image_id)) st.images [] []
  { st with images := pr.1, anns := renumberAnnsGo pr.2 valid [] }

/-- `_check_and_filter_small_boxes`: do nothing when there are no
annotations or no small boxes, else remove the small boxes. -/
def check_and_filter_small_boxes (st : Store) (thr : ℤ) : Store :=
  if st.anns.isEmpty then st
  else if (st.anns.filter (fun a => annArea a < (thr : ℚ))).isEmpty then st
  else remove_small_boxes st thr

-- spec-side renumbering combinators (the claims' wording)

/-- Ids `k, k+1, …` assigned in list order. -/
def renumberImagesFrom (k : ℕ) : List UnifiedImage → List UnifiedImage
  | [] => []
  | im :: rest => {im with id := k} :: renumberImagesFrom (k + 1) rest

/-- The old→new id map pairing each kept image with `k, k+1, …`. -/
def imageIdMapFrom (k : ℕ) : List UnifiedImage → List (ℕ × ℕ)
  | [] => []
  | im :: rest => (im.id, k) :: imageIdMapFrom (k + 1) rest

/-- Ids `k, k+1, …` in list order with `image_id` rewritten through `m`. -/
def renumberAnnsFrom (m : List (ℕ × ℕ)) (k : ℕ) :
    List UnifiedAnn → List UnifiedAnn
  | [] => []
  | a :: rest => {a with image_id := (listLookup m a.image_id).getD 0, id := k} ::
      renumberAnnsFrom m (k + 1) rest

/-- The images the filter keeps: those whose (old) id is referenced by a
surviving annotation, in their original discovery order. -/
def keptImages (st : Store) (thr : ℤ) : List UnifiedImage :=
  st.images.filter (fun im => im.id ∈ (validAnns st thr).map (fun a => a.image_id))

/-- A store on which the quality check's early return is observable: one
image with id 0 and one annotation of area 100, nothing below threshold 25. -/
def frameStoreA : Store :=
  ⟨[⟨0, "class_0"⟩], [⟨"a.jpg", 0, 10, 10⟩], [⟨0, 0, 0, ⟨0, 0, 10, 10⟩, 100⟩],
    [("class_0", 0)], [], 1, 1, 1⟩

/-- Like `frameStoreA` plus a second image (id 1) that has no annotation at
all — e.g. an image added via include_unmatched_images. -/
def frameStoreB : Store :=
  ⟨[⟨0, "class_0"⟩], [⟨"a.jpg", 0, 10, 10⟩, ⟨"b.jpg", 1, 10, 10⟩],
    [⟨0, 0, 0, ⟨0, 0, 10, 10⟩, 100⟩], [("class_0", 0)], [], 2, 1, 1⟩

/-- A store the filter acts on: image 0 carries only a small (area 1)
annotation, image 1 carries a surviving one (area 100). -/
def filterStoreC : Store :=
  ⟨[⟨0, "class_0"⟩], [⟨"a.jpg", 0, 10, 10⟩, ⟨"b.jpg", 1, 10, 10⟩],
    [⟨0, 0, 0, ⟨0, 0, 1, 1⟩, 1⟩, ⟨1, 1, 0, ⟨0, 0, 10, 10⟩, 100⟩],
    [("class_0", 0)], [], 2, 1, 2⟩

/-- Same data as `filterStoreC`, used for the referential-integrity claim. -/
def filterStoreD : Store :=
  ⟨[⟨0, "class_0"⟩], [⟨"a.jpg", 0, 10, 10⟩, ⟨"b.jpg", 1, 10, 10⟩],
    [⟨0, 0, 0, ⟨0, 0, 1, 1⟩, 1⟩, ⟨1, 1, 0, ⟨0, 0, 10, 10⟩, 100⟩],
    [("class_0", 0)], [], 2, 1, 2⟩

-- ===================== polygon rasterizer line parsing (C9) =====================

/-- Python `list(map(float, tokens))`: all tokens must parse, else the
`ValueError` propagates (`none`). -/
def mapFloat : List String → Option (List ℚ)
  | [] => some []
  | t :: rest =>
    match parseFloatStr t, mapFloat rest with
    | some q, some qs => some (q :: qs)
    | _, _ => none

/-- The point loop of `_parse_polygon_line`: for each coordinate pair,
denormalize by image width/height, `int(round(…))` (Python half-to-even
rounding), and clamp with `min(max(v, 0), dim - 1)`. -/
def buildPolyPts (width height : ℤ) : List ℚ → List (ℤ × ℤ)
  | a :: b :: rest =>
    let x := pyRound (a * (width : ℚ))
    let y := pyRound (b * (height : ℚ))
    (min (max x 0) (width - 1), min (max y 0) (height - 1)) ::
      buildPolyPts width height rest
  | _ => []

/-- `_parse_polygon_line`: split the stripped line; reject when there are
fewer than 7 tokens or an even number of tokens; parse the class id as int
and the rest as floats (any failure rejects the line); build the clamped
pixel points; reject if fewer than 3 points result. -/
def parse_polygon_line (line : String) (width height : ℤ) :
    Option (ℤ × List (ℤ × ℤ)) :=
  if (pySplit (pyStrip line)).length < 7 ∨
      (pySplit (pyStrip line)).length % 2 = 0 then none
  else
    match pySplit (pyStrip line) with
    | [] => none
    | p0 :: rest =>
      match parseIntStr p0, mapFloat rest with
      | some cls, some coords =>
        if (buildPolyPts width height coords).length < 3 then none
        else some (cls, buildPolyPts width height coords)
      | _, _ => none

/-- The accept/skip decision of the `_txt_to_mask` loop for one line: the
parse must succeed and the class id must lie inside `[0, max_cls]`
(`max_cls` defaults to 254 in the source). -/
def maskLineKeeps (line : String) (width height max_cls : ℤ) : Bool :=
  match parse_polygon_line line width height with
  | none => false
  | some (cls, _) => ¬ (cls < 0 ∨ cls > max_cls)

/-- The claim's original rejection conditions, verbatim: fewer than 3
coordinate points, class id outside `[0, max_cls]`, or a token failing
numeric parsing. -/
def claimRejects (line : String) (max_cls : ℤ) : Bool :=
  (decide (((pySplit (pyStrip line)).length - 1) / 2 < 3)) ||
  (match pySplit (pyStrip line) with
   | [] => true
   | c :: rest =>
     (match parseIntStr c with
      | none => true
      | some v => decide (v < 0 ∨ v > max_cls)) ||
     rest.any (fun t => (parseFloatStr t).isNone))

/-- The amended rejection conditions: additionally, a dangling coordinate
token (an even total token count) rejects the line. -/
def claimRejectsAmended (line : String) (max_cls : ℤ) : Bool :=
  claimRejects line max_cls ||
    decide ((pySplit (pyStrip line)).length % 2 = 0)

-- ===================== file matching (C1) =====================

/-- The five supported annotation formats. -/
inductive FormatType where
  | yolo
  | voc
  | coco_single
  | labelme
  | hk
deriving DecidableEq

/-- The fields of a decoded annotation JSON that `match_files` reads:
`data['image']['file_name']` (when both keys exist),
`data.get('imagePath', '')` and `data.get('imgName', '')`; a parse failure
is a `none` at the `contents` level. -/
structure AnnJson where
  imageFileName : Option String
  imagePath : String
  imgName : String

/-- The `(matched_pairs, unmatched_annotations, unmatched_images)` triple
(`unmatched_annotations` rendered `unmatched_anns`). -/
structure MatchState where
  matched_pairs : List (String × String)
  unmatched_anns : List String
  unmatched_images : List String
deriving DecidableEq

/-- Python `f.lower().endswith(('.jpg', '.jpeg', '.png', '.bmp'))`. -/
def isImageFile (f : String) : Bool :=
  strEndsWith (strLower f) ".jpg" || strEndsWith (strLower f) ".jpeg" ||
  strEndsWith (strLower f) ".png" || strEndsWith (strLower f) ".bmp"

/-- The format-specific annotation-candidate filter of `match_files`. -/
def annFileFilter : FormatType → String → Bool
  | .yolo, f => strEndsWith f ".txt" && ¬ f = "classes.txt"
  | .voc, f => strEndsWith f ".xml"
  | _, f => strEndsWith f ".json"

/-- The yolo/voc lookup: try `base_name + ext` for each extension in fixed
order and take the first hit among the image files. -/
def findImageByBase (image_files : List String) (base : String) : Option String :=
  ([".jpg", ".jpeg", ".png", ".bmp"].map (fun e => base ++ e)).find?
    (fun n => n ∈ image_files)

/-- Python truthiness of the `img_name` variable (`None` or `""` are falsy). -/
def optTruthy : Option String → Bool
  | some s => ¬ s = ""
  | none => false

/-- The labelme name resolution (hk uses it with `imgName`): take the
basename of the path field; exact match first, then case-insensitive
base-name match over the image files; if still falsy, case-insensitive
base-name match against the annotation file's own base name. -/
def resolveByPath (image_files : List String) (ann_file path : String) :
    Option String :=
  let fromPath : Option String :=
    if ¬ path = "" then
      if pyBasename path ∈ image_files then some (pyBasename path)
      else image_files.find? (fun f =>
        strLower (splitextRoot f) = strLower (splitextRoot (pyBasename path)))
    else none
  if optTruthy fromPath then fromPath
  else image_files.find? (fun f =>
    strLower (splitextRoot f) = strLower (splitextRoot ann_file))

/-- The coco_single name resolution: `image.file_name` when present, else
the yolo-style base-name lookup. -/
def resolveCoco (image_files : List String) (ann_file : String) (d : AnnJson) :
    Option String :=
  match d.imageFileName with
  | some n => some n
  | none => findImageByBase image_files (splitextRoot ann_file)

/-- The per-format `img_name` computation for the three JSON formats. -/
def jsonResolve (fmt : FormatType) (image_files : List String)
    (ann_file : String) (d : AnnJson) : Option String :=
  match fmt with
  | .coco_single => resolveCoco image_files ann_file d
  | .labelme => resolveByPath image_files ann_file d.imagePath
  | .hk => resolveByPath image_files ann_file d.imgName
  | _ => none

/-- One iteration of the `match_files` loop.  For yolo/voc a successful
lookup appends the pair then removes the image from `unmatched_images`
(an absent image raises an uncaught ValueError, `Except.error`).  For the
JSON formats the append-then-remove runs inside the `try`, so a failing
removal is caught and the annotation file is appended to
`unmatched_annotations` — after the pair was already appended. -/
def matchStep (fmt : FormatType) (image_files : List String)
    (contents : String → Option AnnJson) (st : MatchState) (ann_file : String) :
    Except Unit MatchState :=
  match fmt with
  | .yolo | .voc =>
    match findImageByBase image_files (splitextRoot ann_file) with
    | some img =>
      if img = "" then
        .ok { st with unmatched_anns := st.unmatched_anns ++ [ann_file] }
      else if img ∈ st.unmatched_images then
        .ok ⟨st.matched_pairs ++ [(ann_file, img)], st.unmatched_anns,
          st.unmatched_images.erase img⟩
      else .error ()
    | none => .ok { st with unmatched_anns := st.unmatched_anns ++ [ann_file] }
  | fmt =>
    match contents ann_file with
    | none => .ok { st with unmatched_anns := st.unmatched_anns ++ [ann_file] }
    | some d =>
      match jsonResolve fmt image_files ann_file d with
      | some img =>
        if ¬ img = "" ∧ img ∈ image_files then
          if img ∈ st.unmatched_images then
            .ok ⟨st.matched_pairs ++ [(ann_file, img)], st.unmatched_anns,
              st.unmatched_images.erase img⟩
          else
            .ok ⟨st.matched_pairs ++ [(ann_file, img)],
              st.unmatched_anns ++ [ann_file], st.unmatched_images⟩
        else .ok { st with unmatched_anns := st.unmatched_anns ++ [ann_file] }
      | none => .ok { st with unmatched_anns := st.unmatched_anns ++ [ann_file] }

/-- The `match_files` loop over the annotation files. -/
def matchLoop (fmt : FormatType) (image_files : List String)
    (contents : String → Option AnnJson) :
    MatchState → List String → Except Unit MatchState
  | st, [] => .ok st
  | st, a :: rest =>
    match matchStep fmt image_files contents st a with
    | .ok st2 => matchLoop fmt image_files contents st2 rest
    | .error e => .error e

/-- `AnnotationConverter.match_files` over directory listings: filter the
image candidates and the per-format annotation candidates, then run the
loop starting from every image unmatched. -/
def match_files (fmt : FormatType) (image_dir ann_dir : List String)
    (contents : String → Option AnnJson) : Except Unit MatchState :=
  matchLoop fmt (image_dir.filter isImageFile) contents
    ⟨[], [], image_dir.filter isImageFile⟩ (ann_dir.filter (annFileFilter fmt))

/-- The image an annotation file would pair with: the resolved name when it
is truthy and among the image files. -/
def matchedImage (fmt : FormatType) (image_files : List String)
    (contents : String → Option AnnJson) (ann_file : String) : Option String :=
  match fmt with
  | .yolo | .voc =>
    match findImageByBase image_files (splitextRoot ann_file) with
    | some img => if img = "" then none else some img
    | none => none
  | fmt =>
    match contents ann_file with
    | none => none
    | some d =>
      match jsonResolve fmt image_files ann_file d with
      | some img => if ¬ img = "" ∧ img ∈ image_files then some img else none
      | none => none

/-- What the loop body does when the resolved image is no longer in
`unmatched_images`: an uncaught ValueError for yolo/voc; for the JSON
formats a caught one, with the pair already appended and the annotation
file also recorded as unmatched. -/
def dupOutcome (fmt : FormatType) (st : MatchState) (ann_file img : String) :
    Except Unit MatchState :=
  match fmt with
  | .yolo | .voc => .error ()
  | _ => .ok ⟨st.matched_pairs ++ [(ann_file, img)],
      st.unmatched_anns ++ [ann_file], st.unmatched_images⟩

/-- Contents for the duplicate-match counterexample: two labelme files whose
`imagePath` names the same image. -/
def dupContents : String → Option AnnJson := fun s =>
  if s = "b.json" then some ⟨none, "a.jpg", ""⟩
  else if s = "c.json" then some ⟨none, "a.jpg", ""⟩
  else none

/-- Decidable equality of match results, for concrete evaluations. -/
instance : DecidableEq (Except Unit MatchState) := fun a b =>
  match a, b with
  | .ok x, .ok y => if h : x = y then isTrue (by rw [h]) else isFalse (by simp [h])
  | .error x, .error y => isTrue (by cases x; cases y; rfl)
  | .ok _, .error _ => isFalse (by simp)
  | .error _, .ok _ => isFalse (by simp)

-- ===================== theorems =====================

/-- C4 counterexample: on the YOLO line `0 0.5 0.5 0.2 0.4` for a 100x200
image the parser produces the bbox [40, 60, 20, 80] — the y coordinate is
`int(0.5*200 - 0.4*200/2) = 60`, not the 30 the claim states. -/
theorem yolo_scenario_cex :
    ((process_yolo_file emptyStore 0 100 200 [] ["0 0.5 0.5 0.2 0.4"]).anns.map
      (fun a => a.bbox) = [⟨40, 60, 20, 80⟩]) ∧
    ¬ ((process_yolo_file emptyStore 0 100 200 [] ["0 0.5 0.5 0.2 0.4"]).anns.map
      (fun a => a.bbox) = [⟨40, 30, 20, 80⟩]) := by
  decide

/-- C4 (amended): parsing the YOLO line `0 0.5 0.5 0.2 0.4` for an image of
width 100 and height 200 produces exactly one annotation, with bbox
[40, 60, 20, 80] and area 1600, via denormalization by image width/height,
center-form to top-left-form conversion, and truncation to integers. -/
theorem yolo_scenario :
    (process_yolo_file emptyStore 0 100 200 [] ["0 0.5 0.5 0.2 0.4"]).anns =
      [⟨0, 0, 0, ⟨40, 60, 20, 80⟩, 1600⟩] := by
  decide

theorem filter_head_eq_findSome (l : List String) (d : String) :
    (match l.filter (fun t => ¬ t = "") with
     | [] => d
     | t :: _ => t) =
    (match l.findSome? (fun r => if r = "" then none else some r) with
     | some r => r
     | none => d) := by
  induction l with
  | nil => rfl
  | cons a l ih =>
    by_cases ha : a = ""
    · subst ha
      simpa using ih
    · simp [List.filter_cons, List.findSome?_cons, ha]

/-- C7: the category name computed by the hk deepest-tag resolution agrees
with the spec's recursive first-branch descent: the tag of the first child
branch yielding a nonempty deepest tag, with the current node's `tagName` as
fallback when there are no children or no branch yields one. -/
theorem deepest_tag_matches_spec (n : HkNode) :
    find_deepest_tag n = specDeepestTag n := by
  have main : ∀ k (m : HkNode), sizeOf m ≤ k →
      find_deepest_tag m = specDeepestTag m := by
    intro k
    induction k with
    | zero =>
      intro m hm
      cases m with
      | mk t cs => simp only [HkNode.mk.sizeOf_spec] at hm; omega
    | succ k ih =>
      intro m hm
      cases m with
      | mk t cs =>
        have hch : ∀ x : {c // c ∈ cs},
            find_deepest_tag x.1 = specDeepestTag x.1 := by
          rintro ⟨c, hc⟩
          show find_deepest_tag c = specDeepestTag c
          apply ih
          have h1 := List.sizeOf_lt_of_mem hc
          simp only [HkNode.mk.sizeOf_spec] at hm
          omega
        cases cs with
        | nil =>
          simp [find_deepest_tag, specDeepestTag]
        | cons c cs' =>
          unfold find_deepest_tag specDeepestTag
          rw [List.map_congr_left (fun x _ => hch x)]
          exact filter_head_eq_findSome _ t
  exact main (sizeOf n) n le_rfl

theorem pyInt_nonneg {q : ℚ} (h : 0 ≤ q) : 0 ≤ pyInt q := by
  unfold pyInt
  exact Int.tdiv_nonneg (Rat.num_nonneg.mpr h) (Int.ofNat_nonneg _)

/-- C8: for boxes with nonnegative width and height (the only boxes the data
model produces) and a positive expansion ratio, the cropper's expansion
agrees with the claim's description — unchanged at ratio 1, otherwise scaled
about the integer center, with negative left/top pinned to 0 and
overflowing width/height shrunk to the image bounds — and on the concrete
scenario box [40,30,20,80] in a 100x200 image at ratio 2 it yields
(x,y,w,h) = (30,0,40,160). -/
theorem cropper_expansion (x y w h img_w img_h : ℤ) (ratio : ℚ)
    (hw : 0 ≤ w) (hh : 0 ≤ h) (hr : 0 < ratio) :
    apply_expansion_and_bounds (x, y, w, h) img_w img_h ratio =
      specExpand (x, y, w, h) img_w img_h ratio ∧
    apply_expansion_and_bounds (40, 30, 20, 80) 100 200 2 = (30, 0, 40, 160) := by
  constructor
  · by_cases h1 : ratio = 1
    · simp [apply_expansion_and_bounds, specExpand, h1]
    · have hnw : (0 : ℤ) ≤ pyInt ((w : ℚ) * ratio) :=
        pyInt_nonneg (mul_nonneg (by exact_mod_cast hw) (le_of_lt hr))
      have hnh : (0 : ℤ) ≤ pyInt ((h : ℚ) * ratio) :=
        pyInt_nonneg (mul_nonneg (by exact_mod_cast hh) (le_of_lt hr))
      simp only [apply_expansion_and_bounds, specExpand, if_neg h1]
      rw [Int.fdiv_eq_tdiv hw (by decide), Int.fdiv_eq_tdiv hh (by decide),
        Int.fdiv_eq_tdiv hnw (by decide), Int.fdiv_eq_tdiv hnh (by decide)]
  · decide

/-- C8 witness: the theorem applied at the scenario input itself. -/
theorem cropper_expansion_witness :
    apply_expansion_and_bounds (40, 30, 20, 80) 100 200 2 =
      specExpand (40, 30, 20, 80) 100 200 2 ∧
    apply_expansion_and_bounds (40, 30, 20, 80) 100 200 2 = (30, 0, 40, 160) :=
  cropper_expansion 40 30 20 80 100 200 2 (by decide) (by decide) (by decide)

-- ----- quality-filter characterization lemmas -----

theorem check_and_filter_of_small (st : Store) (thr : ℤ)
    (hsmall : ∃ a ∈ st.anns, annArea a < (thr : ℚ)) :
    check_and_filter_small_boxes st thr = remove_small_boxes st thr := by
  obtain ⟨a, ha, hlt⟩ := hsmall
  have h1 : st.anns.isEmpty = false := by
    cases h : st.anns with
    | nil => rw [h] at ha; cases ha
    | cons b l => simp [h]
  have h2 : (st.anns.filter (fun a => annArea a < (thr : ℚ))).isEmpty = false := by
    have hmem : a ∈ st.anns.filter (fun a => annArea a < (thr : ℚ)) :=
      List.mem_filter.2 ⟨ha, by simpa using hlt⟩
    cases h : st.anns.filter (fun a => annArea a < (thr : ℚ)) with
    | nil => rw [h] at hmem; cases hmem
    | cons b l => simp [h]
  simp [check_and_filter_small_boxes, h1, h2]

theorem renumberImagesGo_fst (ids : List ℕ) (l : List UnifiedImage)
    (acc : List UnifiedImage) (m : List (ℕ × ℕ)) :
    (renumberImagesGo ids l acc m).1 =
      acc ++ renumberImagesFrom (acc.length + 1)
        (l.filter (fun im => im.id ∈ ids)) := by
  induction l generalizing acc m with
  | nil => simp [renumberImagesGo, renumberImagesFrom]
  | cons im rest ih =>
    by_cases h : im.id ∈ ids
    · rw [renumberImagesGo, if_pos h, ih]
      simp [List.filter_cons, h, renumberImagesFrom, List.append_assoc]
    · rw [renumberImagesGo, if_neg h, ih]
      simp [List.filter_cons, h]

theorem listHasKey_append {α β : Type} [DecidableEq α]
    (m₁ m₂ : List (α × β)) (k : α) :
    listHasKey (m₁ ++ m₂) k = (listHasKey m₁ k || listHasKey m₂ k) := by
  simp [listHasKey, List.any_append]

theorem renumberImagesGo_snd (ids : List ℕ) (l : List UnifiedImage)
    (acc : List UnifiedImage) (m : List (ℕ × ℕ))
    (hnd : (l.map (fun im => im.id)).Nodup)
    (hdis : ∀ im ∈ l, listHasKey m im.id = false) :
    (renumberImagesGo ids l acc m).2 =
      m ++ imageIdMapFrom (acc.length + 1)
        (l.filter (fun im => im.id ∈ ids)) := by
  induction l generalizing acc m with
  | nil => simp [renumberImagesGo, imageIdMapFrom]
  | cons im rest ih =>
    have hnd' : (rest.map (fun im => im.id)).Nodup := by
      simpa using (List.nodup_cons.1 (by simpa using hnd)).2
    have hhead : im.id ∉ rest.map (fun im => im.id) := by
      exact (List.nodup_cons.1 (by simpa using hnd)).1
    by_cases h : im.id ∈ ids
    · rw [renumberImagesGo, if_pos h]
      have hins : dictInsert m im.id (acc.length + 1) =
          m ++ [(im.id, acc.length + 1)] := by
        rw [dictInsert, if_neg]
        rw [hdis im (List.mem_cons_self _ _)]
        simp
      have hdis' : ∀ im' ∈ rest,
          listHasKey (m ++ [(im.id, acc.length + 1)]) im'.id = false := by
        intro im' him'
        rw [listHasKey_append, hdis im' (List.mem_cons_of_mem _ him')]
        have hne : ¬ (im.id = im'.id) := by
          intro hEq
          exact hhead (hEq ▸ List.mem_map_of_mem _ him')
        simp [listHasKey, hne]
      rw [hins, ih _ _ hnd' hdis']
      simp [List.filter_cons, h, imageIdMapFrom, List.append_assoc]
    · rw [renumberImagesGo, if_neg h]
      rw [ih _ _ hnd' (fun im' him' => hdis im' (List.mem_cons_of_mem _ him'))]
      simp [List.filter_cons, h]

theorem renumberAnnsGo_eq (m : List (ℕ × ℕ)) (l : List UnifiedAnn)
    (acc : List UnifiedAnn) :
    renumberAnnsGo m l acc =
      acc ++ renumberAnnsFrom m (acc.length + 1)
        (l.filter (fun a => listHasKey m a.image_id)) := by
  induction l generalizing acc with
  | nil => simp [renumberAnnsGo, renumberAnnsFrom]
  | cons a rest ih =>
    by_cases h : listHasKey m a.image_id = true
    · rw [renumberAnnsGo, if_pos h, ih]
      simp [List.filter_cons, h, renumberAnnsFrom, List.append_assoc]
    · rw [renumberAnnsGo, if_neg h, ih]
      simp [List.filter_cons, h]

theorem renumberImagesFrom_map_id (k : ℕ) (l : List UnifiedImage) :
    (renumberImagesFrom k l).map (fun im => im.id) = List.range' k l.length := by
  induction l generalizing k with
  | nil => simp [renumberImagesFrom]
  | cons im rest ih => simp [renumberImagesFrom, List.range'_succ, ih]

theorem renumberAnnsFrom_map_id (m : List (ℕ × ℕ)) (k : ℕ) (l : List UnifiedAnn) :
    (renumberAnnsFrom m k l).map (fun a => a.id) = List.range' k l.length := by
  induction l generalizing k with
  | nil => simp [renumberAnnsFrom]
  | cons a rest ih => simp [renumberAnnsFrom, List.range'_succ, ih]

theorem renumberAnnsFrom_map_imageId (m : List (ℕ × ℕ)) (k : ℕ)
    (l : List UnifiedAnn) :
    (renumberAnnsFrom m k l).map (fun a => a.image_id) =
      l.map (fun a => (listLookup m a.image_id).getD 0) := by
  induction l generalizing k with
  | nil => simp [renumberAnnsFrom]
  | cons a rest ih => simp [renumberAnnsFrom, ih]

theorem imageIdMapFrom_keys (k : ℕ) (l : List UnifiedImage) :
    (imageIdMapFrom k l).map (fun p => p.1) = l.map (fun im => im.id) := by
  induction l generalizing k with
  | nil => simp [imageIdMapFrom]
  | cons im rest ih => simp [imageIdMapFrom, ih]

theorem listHasKey_iff_mem {α β : Type} [DecidableEq α]
    (m : List (α × β)) (k : α) :
    listHasKey m k = true ↔ k ∈ m.map (fun p => p.1) := by
  simp only [listHasKey, List.any_eq_true, List.mem_map, decide_eq_true_eq]

theorem listLookup_cons_of_ne {α β : Type} [DecidableEq α] (a : α) (b : β)
    (m : List (α × β)) (k : α) (h : ¬ a = k) :
    listLookup ((a, b) :: m) k = listLookup m k := by
  simp [listLookup, List.find?_cons, h]

theorem listLookup_imageIdMapFrom (l : List UnifiedImage) (k : ℕ)
    (hnd : (l.map (fun im => im.id)).Nodup) :
    ∀ (i : ℕ) (h : i < l.length),
      listLookup (imageIdMapFrom k l) ((l.get ⟨i, h⟩).id) = some (k + i) := by
  induction l generalizing k with
  | nil => intro i h; simp at h
  | cons im rest ih =>
    intro i h
    cases i with
    | zero => simp [imageIdMapFrom, listLookup, List.find?_cons]
    | succ j =>
      have hj : j < rest.length := by simpa using h
      have hnd' : (rest.map (fun im => im.id)).Nodup := by
        simpa using (List.nodup_cons.1 (by simpa using hnd)).2
      have hhead : im.id ∉ rest.map (fun im => im.id) :=
        (List.nodup_cons.1 (by simpa using hnd)).1
      have hstep : ((im :: rest).get ⟨j + 1, h⟩) = rest.get ⟨j, hj⟩ := rfl
      have hne : ¬ (im.id = (rest.get ⟨j, hj⟩).id) := by
        intro hEq
        apply hhead
        rw [hEq]
        exact List.mem_map_of_mem _ (rest.get_mem _ _)
      rw [hstep, imageIdMapFrom, listLookup_cons_of_ne _ _ _ _ hne,
        ih (k + 1) hnd' j hj]
      congr 1
      omega

theorem validAnns_eq_area_filter (st : Store) (thr : ℤ)
    (hann : (st.anns.map (fun a => a.id)).Nodup) :
    validAnns st thr = st.anns.filter (fun a => ¬ annArea a < (thr : ℚ)) := by
  unfold validAnns
  apply List.filter_congr
  intro a ha
  have hiff : (a.id ∈ smallBoxIds st thr) ↔ (annArea a < (thr : ℚ)) := by
    constructor
    · intro hmem
      simp only [smallBoxIds, List.mem_map, List.mem_filter,
        decide_eq_true_eq] at hmem
      obtain ⟨b, ⟨hb, hblt⟩, hid⟩ := hmem
      have hba : b = a := List.inj_on_of_nodup_map hann hb ha hid
      rw [← hba]
      exact hblt
    · intro hlt
      exact List.mem_map_of_mem _ (List.mem_filter.2 ⟨ha, by simpa using hlt⟩)
  exact decide_eq_decide.2 (not_congr hiff)

theorem remove_small_boxes_images (st : Store) (thr : ℤ) :
    (remove_small_boxes st thr).images = renumberImagesFrom 1 (keptImages st thr) := by
  simp only [remove_small_boxes]
  rw [renumberImagesGo_fst]
  simp [keptImages]

theorem remove_small_boxes_map (st : Store) (thr : ℤ)
    (himg : (st.images.map (fun im => im.id)).Nodup) :
    (renumberImagesGo ((validAnns st thr).map (fun a => a.image_id))
      st.images [] []).2 = imageIdMapFrom 1 (keptImages st thr) := by
  rw [renumberImagesGo_snd ((validAnns st thr).map (fun a => a.image_id))
    st.images [] [] himg (fun im _ => rfl)]
  simp [keptImages]

theorem remove_small_boxes_anns (st : Store) (thr : ℤ)
    (himg : (st.images.map (fun im => im.id)).Nodup) :
    (remove_small_boxes st thr).anns =
      renumberAnnsFrom (imageIdMapFrom 1 (keptImages st thr)) 1
        ((validAnns st thr).filter
          (fun a => a.image_id ∈ (keptImages st thr).map (fun im => im.id))) := by
  have hannsfilter : (validAnns st thr).filter
      (fun a => listHasKey (imageIdMapFrom 1 (keptImages st thr)) a.image_id) =
      (validAnns st thr).filter
        (fun a => a.image_id ∈ (keptImages st thr).map (fun im => im.id)) := by
    apply List.filter_congr
    intro a ha
    by_cases hmem : a.image_id ∈ (keptImages st thr).map (fun im => im.id)
    · have hk : a.image_id ∈ (imageIdMapFrom 1 (keptImages st thr)).map
          (fun p => p.1) := by
        rw [imageIdMapFrom_keys]
        exact hmem
      rw [(listHasKey_iff_mem _ _).2 hk]
      simp [hmem]
    · have hk : ¬ a.image_id ∈ (imageIdMapFrom 1 (keptImages st thr)).map
          (fun p => p.1) := by
        rw [imageIdMapFrom_keys]
        exact hmem
      have hfalse : listHasKey (imageIdMapFrom 1 (keptImages st thr))
          a.image_id = false := by
        cases hkk : listHasKey (imageIdMapFrom 1 (keptImages st thr)) a.image_id
        · rfl
        · exact absurd ((listHasKey_iff_mem _ _).1 hkk) hk
      rw [hfalse]
      simp [hmem]
  simp only [remove_small_boxes]
  rw [renumberAnnsGo_eq, remove_small_boxes_map st thr himg, hannsfilter]
  simp

theorem mem_renumberImagesFrom {b : UnifiedImage} :
    ∀ (k : ℕ) (l : List UnifiedImage), b ∈ renumberImagesFrom k l →
      ∃ (i : ℕ) (h : i < l.length), b = {l.get ⟨i, h⟩ with id := k + i} := by
  intro k l
  induction l generalizing k with
  | nil => intro h; cases h
  | cons im rest ih =>
    intro hb
    rw [renumberImagesFrom] at hb
    rcases List.mem_cons.1 hb with h | h
    · exact ⟨0, by simp, by simpa using h⟩
    · obtain ⟨i, hi, hbe⟩ := ih (k + 1) h
      refine ⟨i + 1, by simpa using hi, ?_⟩
      have harith : k + (i + 1) = (k + 1) + i := by omega
      have hget : ((im :: rest).get ⟨i + 1, by simpa using hi⟩) =
          rest.get ⟨i, hi⟩ := rfl
      rw [hget, harith]
      exact hbe

theorem check_and_filter_no_small (st : Store) (thr : ℤ)
    (h : ∀ a ∈ st.anns, ¬ annArea a < (thr : ℚ)) :
    check_and_filter_small_boxes st thr = st := by
  have hf : st.anns.filter (fun a => annArea a < (thr : ℚ)) = [] := by
    rw [List.filter_eq_nil_iff]
    intro a ha
    simpa using h a ha
  simp [check_and_filter_small_boxes, hf]

/-- C10: if no annotation's width times height is strictly below the area
threshold (including an empty annotation list), the quality-check step
leaves the store completely unchanged — images, annotations, their 0-based
ids and zero-annotation images are all retained exactly as built. -/
theorem quality_filter_frame (st : Store) (thr : ℤ)
    (h : ∀ a ∈ st.anns, ¬ annArea a < (thr : ℚ)) :
    check_and_filter_small_boxes st thr = st :=
  check_and_filter_no_small st thr h

/-- C10 witness: a store with one image (id 0) and one annotation of area
100 passes threshold 25 unchanged. -/
theorem quality_filter_frame_witness :
    check_and_filter_small_boxes frameStoreA 25 = frameStoreA :=
  quality_filter_frame frameStoreA 25 (by decide)

/-- C2 counterexample: on a store whose single annotation has area 100 the
quality check (threshold 25) returns early, so the surviving image keeps its
0-based id — the surviving images do not carry identifiers 1, 2, …. -/
theorem quality_filter_renumbering_cex :
    (check_and_filter_small_boxes frameStoreA 25).images.map (fun im => im.id)
      = [0] ∧
    ¬ ((check_and_filter_small_boxes frameStoreA 25).images.map (fun im => im.id)
      = List.range' 1
          (check_and_filter_small_boxes frameStoreA 25).images.length) := by
  decide

/-- C2 (amended): provided at least one annotation falls strictly below the
area threshold (otherwise the quality check returns the store unchanged),
after the filter runs the surviving annotations are exactly those at or
above the threshold, the surviving images carry identifiers 1, 2, … in
their original discovery order, and the surviving annotations carry
identifiers 1, 2, … in their original pre-filter order with each
annotation's `image_id` rewritten through the old-to-new image id map. -/
theorem quality_filter_renumbering (st : Store) (thr : ℤ)
    (himg : (st.images.map (fun im => im.id)).Nodup)
    (hann : (st.anns.map (fun a => a.id)).Nodup)
    (hsmall : ∃ a ∈ st.anns, annArea a < (thr : ℚ)) :
    validAnns st thr = st.anns.filter (fun a => ¬ annArea a < (thr : ℚ)) ∧
    (check_and_filter_small_boxes st thr).images =
      renumberImagesFrom 1 (keptImages st thr) ∧
    (check_and_filter_small_boxes st thr).images.map (fun im => im.id) =
      List.range' 1 (keptImages st thr).length ∧
    (check_and_filter_small_boxes st thr).anns =
      renumberAnnsFrom (imageIdMapFrom 1 (keptImages st thr)) 1
        ((validAnns st thr).filter
          (fun a => a.image_id ∈ (keptImages st thr).map (fun im => im.id))) ∧
    (check_and_filter_small_boxes st thr).anns.map (fun a => a.id) =
      List.range' 1 ((validAnns st thr).filter
        (fun a => a.image_id ∈ (keptImages st thr).map (fun im => im.id))).length := by
  rw [check_and_filter_of_small st thr hsmall]
  refine ⟨validAnns_eq_area_filter st thr hann, remove_small_boxes_images st thr,
    ?_, remove_small_boxes_anns st thr himg, ?_⟩
  · rw [remove_small_boxes_images st thr, renumberImagesFrom_map_id]
  · rw [remove_small_boxes_anns st thr himg, renumberAnnsFrom_map_id]

/-- C2 witness: the renumbering theorem applied to a concrete store with one
small (area 1) and one surviving (area 100) annotation. -/
theorem quality_filter_renumbering_witness :
    validAnns filterStoreC 25 =
      filterStoreC.anns.filter (fun a => ¬ annArea a < ((25 : ℤ) : ℚ)) ∧
    (check_and_filter_small_boxes filterStoreC 25).images =
      renumberImagesFrom 1 (keptImages filterStoreC 25) ∧
    (check_and_filter_small_boxes filterStoreC 25).images.map (fun im => im.id) =
      List.range' 1 (keptImages filterStoreC 25).length ∧
    (check_and_filter_small_boxes filterStoreC 25).anns =
      renumberAnnsFrom (imageIdMapFrom 1 (keptImages filterStoreC 25)) 1
        ((validAnns filterStoreC 25).filter
          (fun a => a.image_id ∈ (keptImages filterStoreC 25).map (fun im => im.id))) ∧
    (check_and_filter_small_boxes filterStoreC 25).anns.map (fun a => a.id) =
      List.range' 1 ((validAnns filterStoreC 25).filter
        (fun a => a.image_id ∈ (keptImages filterStoreC 25).map (fun im => im.id))).length :=
  quality_filter_renumbering filterStoreC 25 (by decide) (by decide) (by decide)

/-- C3 counterexample: a store with an image (id 1) that has no annotation
at all — as `include_unmatched_images` produces — and no annotation below
the threshold: the quality check returns early, and the zero-annotation
image survives. -/
theorem quality_filter_drops_unannotated_cex :
    ∃ im ∈ (check_and_filter_small_boxes frameStoreB 25).images,
      ∀ a ∈ (check_and_filter_small_boxes frameStoreB 25).anns,
        ¬ a.image_id = im.id := by
  decide

/-- C3 (amended): provided at least one annotation falls strictly below the
area threshold (otherwise the quality check returns the store unchanged),
after the filter runs every image with zero surviving annotations has been
removed — every retained image, including any that had been added only
because include_unmatched_images was set, is referenced by at least one
retained annotation. -/
theorem quality_filter_drops_unannotated (st : Store) (thr : ℤ)
    (himg : (st.images.map (fun im => im.id)).Nodup)
    (hsmall : ∃ a ∈ st.anns, annArea a < (thr : ℚ)) :
    ∀ im ∈ (check_and_filter_small_boxes st thr).images,
      ∃ a ∈ (check_and_filter_small_boxes st thr).anns, a.image_id = im.id := by
  have hkeptnodup : ((keptImages st thr).map (fun im => im.id)).Nodup := by
    have hsub : List.Sublist ((keptImages st thr).map (fun im => im.id))
        (st.images.map (fun im => im.id)) :=
      List.Sublist.map _ (List.filter_sublist _)
    exact hsub.nodup himg
  intro im him
  rw [check_and_filter_of_small st thr hsmall] at him ⊢
  rw [remove_small_boxes_images st thr] at him
  obtain ⟨i, hi, rfl⟩ := mem_renumberImagesFrom 1 _ him
  have hmemkept : (keptImages st thr).get ⟨i, hi⟩ ∈ keptImages st thr :=
    List.get_mem _ _ _
  have hfil := hmemkept
  simp only [keptImages] at hfil
  have href : ((keptImages st thr).get ⟨i, hi⟩).id ∈
      (validAnns st thr).map (fun a => a.image_id) :=
    of_decide_eq_true (List.mem_filter.1 hfil).2
  obtain ⟨a, ha, haid⟩ := List.mem_map.1 href
  have hasec : a ∈ (validAnns st thr).filter
      (fun a => a.image_id ∈ (keptImages st thr).map (fun im => im.id)) := by
    apply List.mem_filter.2
    refine ⟨ha, ?_⟩
    simp only [decide_eq_true_eq]
    rw [haid]
    exact List.mem_map_of_mem _ hmemkept
  have hlook : listLookup (imageIdMapFrom 1 (keptImages st thr)) a.image_id =
      some (1 + i) := by
    rw [haid]
    exact listLookup_imageIdMapFrom _ 1 hkeptnodup i hi
  rw [remove_small_boxes_anns st thr himg]
  have hmapped : (1 + i) ∈ (renumberAnnsFrom (imageIdMapFrom 1 (keptImages st thr)) 1
      ((validAnns st thr).filter
        (fun a => a.image_id ∈ (keptImages st thr).map (fun im => im.id)))).map
          (fun a => a.image_id) := by
    rw [renumberAnnsFrom_map_imageId]
    have hval : (listLookup (imageIdMapFrom 1 (keptImages st thr)) a.image_id).getD 0
        = 1 + i := by
      rw [hlook]
      rfl
    exact hval ▸ List.mem_map_of_mem _ hasec
  obtain ⟨a2, ha2, ha2eq⟩ := List.mem_map.1 hmapped
  exact ⟨a2, ha2, ha2eq⟩

/-- C3 witness: the theorem applied to a concrete store (one small and one
surviving annotation) at the surviving image. -/
theorem quality_filter_drops_unannotated_witness :
    ∃ a ∈ (check_and_filter_small_boxes filterStoreD 25).anns,
      a.image_id = (UnifiedImage.mk "b.jpg" 1 10 10).id :=
  quality_filter_drops_unannotated filterStoreD 25 (by decide) (by decide)
    ⟨"b.jpg", 1, 10, 10⟩ (by decide)

-- ----- polygon-line lemmas and C9 -----

theorem mapFloat_length : ∀ (l : List String) (qs : List ℚ),
    mapFloat l = some qs → qs.length = l.length := by
  intro l
  induction l with
  | nil =>
    intro qs h
    simp only [mapFloat, Option.some.injEq] at h
    simp [← h]
  | cons t rest ih =>
    intro qs h
    simp only [mapFloat] at h
    rcases h1 : parseFloatStr t with _ | q
    · rw [h1] at h; cases h
    · rw [h1] at h
      rcases h2 : mapFloat rest with _ | qs2
      · rw [h2] at h; cases h
      · rw [h2] at h
        simp only [Option.some.injEq] at h
        rw [← h]
        simp [ih qs2 h2]

theorem mapFloat_isNone : ∀ (l : List String),
    (mapFloat l).isNone = l.any (fun t => (parseFloatStr t).isNone) := by
  intro l
  induction l with
  | nil => rfl
  | cons t rest ih =>
    simp only [mapFloat, List.any_cons]
    rcases h1 : parseFloatStr t with _ | q
    · simp [h1]
    · rcases h2 : mapFloat rest with _ | qs
      · rw [h2] at ih
        simp [h1, ← ih]
      · rw [h2] at ih
        simp [h1, ← ih]

theorem buildPolyPts_length_ge (w h : ℤ) :
    ∀ (l : List ℚ), l.length ≤ 2 * (buildPolyPts w h l).length + 1
  | [] => by simp [buildPolyPts]
  | [a] => by simp [buildPolyPts]
  | a :: b :: rest => by
    have ih := buildPolyPts_length_ge w h rest
    simp only [buildPolyPts, List.length_cons]
    omega

/-- C9 (amended): a polygon line is kept by the mask loop exactly when none
of the rejection conditions hold — fewer than 3 coordinate points, a
dangling coordinate token (even total token count), a class id outside
[0, max_cls] (default 254), or a token failing numeric parsing; rejection is
per line.  For an accepted line each coordinate is denormalized by image
width/height, rounded (not truncated; Python's half-to-even) and clamped to
[0, dim-1], as the concrete line `0 0 0 0.25 0.25 0.55 0.55` on a 10x10
image shows: points (0,0), (2,2) (2.5 rounds to even 2) and (6,6) (5.5
rounds up to 6). -/
theorem polygon_line_rejection (line : String) (width height max_cls : ℤ) :
    (maskLineKeeps line width height max_cls = true ↔
      claimRejectsAmended line max_cls = false) ∧
    parse_polygon_line "0 0 0 0.25 0.25 0.55 0.55" 10 10 =
      some (0, [(0, 0), (2, 2), (6, 6)]) := by
  refine ⟨?_, by decide⟩
  by_cases hlen : (pySplit (pyStrip line)).length < 7 ∨
      (pySplit (pyStrip line)).length % 2 = 0
  · have hkeeps : maskLineKeeps line width height max_cls = false := by
      unfold maskLineKeeps parse_polygon_line
      rw [if_pos hlen]
    have hrej : claimRejectsAmended line max_cls = true := by
      unfold claimRejectsAmended claimRejects
      rcases hlen with h | h
      · have h3 : ((pySplit (pyStrip line)).length - 1) / 2 < 3 := by omega
        simp [h3]
      · simp [h]
    rw [hkeeps, hrej]
    simp
  · rcases hp : pySplit (pyStrip line) with _ | ⟨p0, rest⟩
    · exfalso
      apply hlen
      left
      rw [hp]
      simp
  
    · have h7 : ¬ ((pySplit (pyStrip line)).length < 7) := fun h => hlen (Or.inl h)
      have hodd : ¬ ((pySplit (pyStrip line)).length % 2 = 0) :=
        fun h => hlen (Or.inr h)
      have hrest6 : 6 ≤ rest.length := by
        rw [hp] at h7
        simp only [List.length_cons] at h7
        omega
      have hlen1 : (pySplit (pyStrip line)).length = rest.length + 1 := by
        rw [hp]
        simp
      have hnot3 : ¬ (rest.length / 2 < 3) := by omega
      have hodd2 : ¬ ((rest.length + 1) % 2 = 0) := by
        rw [← hlen1]
        exact hodd
      rcases hint : parseIntStr p0 with _ | cls
      all_goals rcases hmf : mapFloat rest with _ | coords
      · have hpv : parse_polygon_line line width height = none := by
          unfold parse_polygon_line
          rw [if_neg hlen, hp]
          simp [hint, hmf]
        have hkeeps : maskLineKeeps line width height max_cls = false := by
          unfold maskLineKeeps
          rw [hpv]
        have hrej : claimRejectsAmended line max_cls = true := by
          unfold claimRejectsAmended claimRejects
          rw [hp]
          simp [hint]
        rw [hkeeps, hrej]
        simp
      · have hpv : parse_polygon_line line width height = none := by
          unfold parse_polygon_line
          rw [if_neg hlen, hp]
          simp [hint, hmf]
        have hkeeps : maskLineKeeps line width height max_cls = false := by
          unfold maskLineKeeps
          rw [hpv]
        have hrej : claimRejectsAmended line max_cls = true := by
          unfold claimRejectsAmended claimRejects
          rw [hp]
          simp [hint]
        rw [hkeeps, hrej]
        simp
      · have hany : rest.any (fun t => (parseFloatStr t).isNone) = true := by
          have hin := mapFloat_isNone rest
          rw [hmf] at hin
          simpa using hin.symm
        have hpv : parse_polygon_line line width height = none := by
          unfold parse_polygon_line
          rw [if_neg hlen, hp]
          simp [hint, hmf]
        have hkeeps : maskLineKeeps line width height max_cls = false := by
          unfold maskLineKeeps
          rw [hpv]
        have hrej : claimRejectsAmended line max_cls = true := by
          unfold claimRejectsAmended claimRejects
          rw [hp]
          simp [hint, hany]
        rw [hkeeps, hrej]
        simp
      · have hclen : coords.length = rest.length := mapFloat_length rest coords hmf
        have hpts : ¬ ((buildPolyPts width height coords).length < 3) := by
          have hge := buildPolyPts_length_ge width height coords
          omega
        have hpv : parse_polygon_line line width height =
            some (cls, buildPolyPts width height coords) := by
          unfold parse_polygon_line
          rw [if_neg hlen, hp]
          simp [hint, hmf, hpts]
        have hkeeps : maskLineKeeps line width height max_cls =
            decide (¬ (cls < 0 ∨ cls > max_cls)) := by
          unfold maskLineKeeps
          rw [hpv]
        have hany : rest.any (fun t => (parseFloatStr t).isNone) = false := by
          have hin := mapFloat_isNone rest
          rw [hmf] at hin
          simpa using hin.symm
        have hrej : claimRejectsAmended line max_cls =
            decide (cls < 0 ∨ cls > max_cls) := by
          unfold claimRejectsAmended claimRejects
          rw [hp]
          simp [hint, hany, hnot3, hodd2]
        rw [hkeeps, hrej]
        simp [decide_not]

/-- C9 counterexample: the 8-token line `0 0.1 0.1 0.2 0.2 0.3 0.3 0.4` has
three complete, all-numeric coordinate points and class id 0, so none of the
claim's rejection conditions hold — yet the code rejects it through the
even-token-count check. -/
theorem polygon_line_rejection_cex :
    maskLineKeeps "0 0.1 0.1 0.2 0.2 0.3 0.3 0.4" 10 10 254 = false ∧
    claimRejects "0 0.1 0.1 0.2 0.2 0.3 0.3 0.4" 254 = false := by
  decide

-- ----- file-matching lemmas and C1 -----

theorem matchStep_char (fmt : FormatType) (image_files : List String)
    (contents : String → Option AnnJson) (st : MatchState) (ann_file : String) :
    matchStep fmt image_files contents st ann_file =
      match matchedImage fmt image_files contents ann_file with
      | none => .ok { st with unmatched_anns := st.unmatched_anns ++ [ann_file] }
      | some img =>
        if img ∈ st.unmatched_images then
          .ok ⟨st.matched_pairs ++ [(ann_file, img)], st.unmatched_anns,
            st.unmatched_images.erase img⟩
        else dupOutcome fmt st ann_file img := by
  have hbase : ∀ (hfmt : fmt = .yolo ∨ fmt = .voc), True := fun _ => trivial
  cases fmt with
  | yolo =>
    rcases hfind : findImageByBase image_files (splitextRoot ann_file) with _ | img
    · simp [matchStep, matchedImage, hfind]
    · by_cases himg : img = ""
      · simp [matchStep, matchedImage, hfind, himg]
      · by_cases hmem : img ∈ st.unmatched_images
        · simp [matchStep, matchedImage, hfind, himg, hmem]
        · simp [matchStep, matchedImage, dupOutcome, hfind, himg, hmem]
  | voc =>
    rcases hfind : findImageByBase image_files (splitextRoot ann_file) with _ | img
    · simp [matchStep, matchedImage, hfind]
    · by_cases himg : img = ""
      · simp [matchStep, matchedImage, hfind, himg]
      · by_cases hmem : img ∈ st.unmatched_images
        · simp [matchStep, matchedImage, hfind, himg, hmem]
        · simp [matchStep, matchedImage, dupOutcome, hfind, himg, hmem]
  | coco_single =>
    rcases hc : contents ann_file with _ | d
    · simp [matchStep, matchedImage, hc]
    · rcases hr : jsonResolve .coco_single image_files ann_file d with _ | img
      · simp [matchStep, matchedImage, hc, hr]
      · by_cases hok : ¬ img = "" ∧ img ∈ image_files
        · by_cases hmem : img ∈ st.unmatched_images
          · simp [matchStep, matchedImage, hc, hr, hok, hmem]
          · simp [matchStep, matchedImage, dupOutcome, hc, hr, hok, hmem]
        · simp [matchStep, matchedImage, hc, hr, hok]
  | labelme =>
    rcases hc : contents ann_file with _ | d
    · simp [matchStep, matchedImage, hc]
    · rcases hr : jsonResolve .labelme image_files ann_file d with _ | img
      · simp [matchStep, matchedImage, hc, hr]
      · by_cases hok : ¬ img = "" ∧ img ∈ image_files
        · by_cases hmem : img ∈ st.unmatched_images
          · simp [matchStep, matchedImage, hc, hr, hok, hmem]
          · simp [matchStep, matchedImage, dupOutcome, hc, hr, hok, hmem]
        · simp [matchStep, matchedImage, hc, hr, hok]
  | hk =>
    rcases hc : contents ann_file with _ | d
    · simp [matchStep, matchedImage, hc]
    · rcases hr : jsonResolve .hk image_files ann_file d with _ | img
      · simp [matchStep, matchedImage, hc, hr]
      · by_cases hok : ¬ img = "" ∧ img ∈ image_files
        · by_cases hmem : img ∈ st.unmatched_images
          · simp [matchStep, matchedImage, hc, hr, hok, hmem]
          · simp [matchStep, matchedImage, dupOutcome, hc, hr, hok, hmem]
        · simp [matchStep, matchedImage, hc, hr, hok]

theorem matchedImage_mem (fmt : FormatType) (image_files : List String)
    (contents : String → Option AnnJson) (ann_file img : String)
    (h : matchedImage fmt image_files contents ann_file = some img) :
    img ∈ image_files := by
  have hfind : ∀ base i, findImageByBase image_files base = some i →
      i ∈ image_files := by
    intro base i hf
    have := List.find?_some hf
    exact of_decide_eq_true this
  cases fmt with
  | yolo =>
    rcases hf : findImageByBase image_files (splitextRoot ann_file) with _ | i
    · simp [matchedImage, hf] at h
    · by_cases hi : i = ""
      · simp [matchedImage, hf, hi] at h
      · simp [matchedImage, hf, hi] at h
        rw [← h]
        exact hfind _ _ hf
  | voc =>
    rcases hf : findImageByBase image_files (splitextRoot ann_file) with _ | i
    · simp [matchedImage, hf] at h
    · by_cases hi : i = ""
      · simp [matchedImage, hf, hi] at h
      · simp [matchedImage, hf, hi] at h
        rw [← h]
        exact hfind _ _ hf
  | coco_single =>
    rcases hc : contents ann_file with _ | d
    · simp [matchedImage, hc] at h
    · rcases hr : jsonResolve .coco_single image_files ann_file d with _ | i
      · simp [matchedImage, hc, hr] at h
      · by_cases hok : ¬ i = "" ∧ i ∈ image_files
        · simp [matchedImage, hc, hr, hok] at h
          rw [← h]
          exact hok.2
        · simp [matchedImage, hc, hr, hok] at h
  | labelme =>
    rcases hc : contents ann_file with _ | d
    · simp [matchedImage, hc] at h
    · rcases hr : jsonResolve .labelme image_files ann_file d with _ | i
      · simp [matchedImage, hc, hr] at h
      · by_cases hok : ¬ i = "" ∧ i ∈ image_files
        · simp [matchedImage, hc, hr, hok] at h
          rw [← h]
          exact hok.2
        · simp [matchedImage, hc, hr, hok] at h
  | hk =>
    rcases hc : contents ann_file with _ | d
    · simp [matchedImage, hc] at h
    · rcases hr : jsonResolve .hk image_files ann_file d with _ | i
      · simp [matchedImage, hc, hr] at h
      · by_cases hok : ¬ i = "" ∧ i ∈ image_files
        · simp [matchedImage, hc, hr, hok] at h
          rw [← h]
          exact hok.2
        · simp [matchedImage, hc, hr, hok] at h

theorem matchLoop_cons_ok (fmt : FormatType) (image_files : List String)
    (contents : String → Option AnnJson) (st : MatchState) (a : String)
    (rest : List String) (st1 : MatchState)
    (h : matchStep fmt image_files contents st a = .ok st1) :
    matchLoop fmt image_files contents st (a :: rest) =
      matchLoop fmt image_files contents st1 rest := by
  rw [matchLoop, h]

theorem matchLoop_partition (fmt : FormatType) (image_files : List String)
    (contents : String → Option AnnJson) :
    ∀ (anns prev : List String) (st : MatchState),
      ((prev ++ anns).filterMap (matchedImage fmt image_files contents)).Nodup →
      ((st.matched_pairs.map Prod.snd) ++ st.unmatched_images).Perm image_files →
      (∀ img ∈ st.matched_pairs.map Prod.snd,
        img ∈ prev.filterMap (matchedImage fmt image_files contents)) →
      ∃ st2, matchLoop fmt image_files contents st anns = .ok st2 ∧
        ((st2.matched_pairs.map Prod.snd) ++ st2.unmatched_images).Perm
          image_files := by
  intro anns
  induction anns with
  | nil =>
    intro prev st hnd hperm hsub
    exact ⟨st, rfl, hperm⟩
  | cons a rest ih =>
    intro prev st hnd hperm hsub
    rcases hm : matchedImage fmt image_files contents a with _ | img
    · rw [matchLoop_cons_ok fmt image_files contents st a rest
        ⟨st.matched_pairs, st.unmatched_anns ++ [a], st.unmatched_images⟩
        (by rw [matchStep_char, hm])]
      apply ih (prev ++ [a])
      · rw [List.append_assoc]
        simpa using hnd
      · simpa using hperm
      · intro img2 himg2
        rw [List.filterMap_append]
        exact List.mem_append_left _ (hsub img2 (by simpa using himg2))
    · have hnd2 := hnd
      rw [List.filterMap_append, List.filterMap_cons, hm] at hnd2
      have hdisj := List.disjoint_of_nodup_append hnd2
      have hin : img ∈ st.unmatched_images := by
        by_contra hnot
        have himgfiles : img ∈ image_files :=
          matchedImage_mem fmt image_files contents a img hm
        have hsplit : img ∈ (st.matched_pairs.map Prod.snd) ++
            st.unmatched_images := hperm.mem_iff.2 himgfiles
        rcases List.mem_append.1 hsplit with h1 | h2
        · exact hdisj (hsub img h1) (List.mem_cons_self _ _)
        · exact hnot h2
      rw [matchLoop_cons_ok fmt image_files contents st a rest
        ⟨st.matched_pairs ++ [(a, img)], st.unmatched_anns,
          st.unmatched_images.erase img⟩
        (by simp [matchStep_char, hm, hin])]
      apply ih (prev ++ [a])
      · rw [List.append_assoc]
        simpa using hnd
      · show ((st.matched_pairs ++ [(a, img)]).map Prod.snd ++
          st.unmatched_images.erase img).Perm image_files
        have h1 : ((st.matched_pairs ++ [(a, img)]).map Prod.snd ++
            st.unmatched_images.erase img) =
            st.matched_pairs.map Prod.snd ++
              ([img] ++ st.unmatched_images.erase img) := by
          rw [List.map_append, List.append_assoc]
          rfl
        rw [h1]
        have h2 : ([img] ++ st.unmatched_images.erase img).Perm
            st.unmatched_images := (List.perm_cons_erase hin).symm
        exact (List.Perm.append_left _ h2).trans hperm
      · intro img2 himg2
        rw [List.filterMap_append]
        rw [List.map_append] at himg2
        rcases List.mem_append.1 himg2 with h1 | h2
        · exact List.mem_append_left _ (hsub img2 h1)
        · apply List.mem_append_right
          rw [List.filterMap_cons, hm]
          simp only [List.map_cons, List.map_nil, List.mem_singleton] at h2
          rw [h2]
          exact List.mem_cons_self _ _

/-- C1 (amended): provided no two (filtered) annotation files resolve to the
same image — which holds in particular for yolo/voc, where resolution is by
the annotation file's unique base name — `match_files` succeeds, no image
file appears in more than one matched pair, and the matched-pair images
together with `unmatched_images` are a permutation of the image files, so
every image file appears exactly once across the two. -/
theorem match_files_partition (fmt : FormatType) (image_dir ann_dir : List String)
    (contents : String → Option AnnJson)
    (hnd_img : (image_dir.filter isImageFile).Nodup)
    (hnd_res : ((ann_dir.filter (annFileFilter fmt)).filterMap
      (matchedImage fmt (image_dir.filter isImageFile) contents)).Nodup) :
    ∃ st, match_files fmt image_dir ann_dir contents = .ok st ∧
      ((st.matched_pairs.map Prod.snd) ++ st.unmatched_images).Perm
        (image_dir.filter isImageFile) ∧
      (st.matched_pairs.map Prod.snd).Nodup ∧
      ((st.matched_pairs.map Prod.snd) ++ st.unmatched_images).Nodup := by
  obtain ⟨st, hloop, hperm⟩ := matchLoop_partition fmt
    (image_dir.filter isImageFile) contents (ann_dir.filter (annFileFilter fmt))
    [] ⟨[], [], image_dir.filter isImageFile⟩ (by simpa using hnd_res)
    (by simp) (by simp)
  have hall : ((st.matched_pairs.map Prod.snd) ++ st.unmatched_images).Nodup :=
    hperm.nodup_iff.2 hnd_img
  exact ⟨st, hloop, hperm,
    (List.sublist_append_left _ _).nodup hall, hall⟩

/-- C1 witness: the partition theorem on a one-image, one-annotation yolo
directory. -/
theorem match_files_partition_witness :
    ∃ st, match_files .yolo ["a.jpg"] ["a.txt"] (fun _ => none) = .ok st ∧
      ((st.matched_pairs.map Prod.snd) ++ st.unmatched_images).Perm
        (["a.jpg"].filter isImageFile) ∧
      (st.matched_pairs.map Prod.snd).Nodup ∧
      ((st.matched_pairs.map Prod.snd) ++ st.unmatched_images).Nodup :=
  match_files_partition .yolo ["a.jpg"] ["a.txt"] (fun _ => none)
    (by decide) (by decide)

/-- C1 counterexample: two labelme annotation files resolving to the same
image.  The second pair is appended to `matched_pairs` before the failing
removal is caught, so the image `a.jpg` appears in two matched pairs (and
`c.json` is both matched and recorded as unmatched) — the claim's
properties fail as stated. -/
theorem match_files_dup_cex :
    match_files .labelme ["a.jpg"] ["b.json", "c.json"] dupContents =
      .ok ⟨[("b.json", "a.jpg"), ("c.json", "a.jpg")], ["c.json"], []⟩ ∧
    ¬ ((MatchState.mk [("b.json", "a.jpg"), ("c.json", "a.jpg")]
        ["c.json"] []).matched_pairs.map Prod.snd).Nodup := by
  decide

-- ----- pipeline invariant lemmas (C5, C6) -----

theorem addRecord_images (st : Store) (img_id : ℕ) (n : String) (b : BBox) :
    (addRecord st img_id n b).images = st.images ∧
    (addRecord st img_id n b).img_count = st.img_count := by
  unfold addRecord
  by_cases h : listHasKey st.cat2id n = true
  · simp [h]
  · simp [h]

theorem addRecord_anns (st : Store) (img_id : ℕ) (n : String) (b : BBox) :
    ∃ x, (addRecord st img_id n b).anns = st.anns ++ [x] ∧ x.image_id = img_id := by
  by_cases h : listHasKey st.cat2id n = true
  · exact ⟨⟨st.ann_count, img_id, (listLookup st.cat2id n).getD 0, b, b.w * b.h⟩,
      by simp [addRecord, h], rfl⟩
  · exact ⟨⟨st.ann_count, img_id,
      (listLookup (st.cat2id ++ [(n, st.cat_count)]) n).getD 0, b, b.w * b.h⟩,
      by simp [addRecord, h], rfl⟩

theorem addRecord_catInv (st : Store) (img_id : ℕ) (n : String) (b : BBox)
    (h : CatInv st) : CatInv (addRecord st img_id n b) := by
  obtain ⟨hid, hnames, hc2⟩ := h
  unfold CatInv addRecord
  by_cases hk : listHasKey st.cat2id n = true
  · simp only [if_pos hk]
    exact ⟨hid, hnames, hc2⟩
  · simp only [if_neg hk]
    have hnot : n ∉ st.categories.map (fun c => c.name) := by
      intro hmem
      apply hk
      rw [listHasKey_iff_mem, hc2, List.map_map]
      simpa using hmem
    refine ⟨?_, ?_, ?_⟩
    · show (st.categories ++ [(⟨st.cat_count, n⟩ : UnifiedCategory)]).map
          (fun c => c.id) = List.range (st.cat_count + 1)
      rw [List.map_append, hid, List.range_succ]
      rfl
    · show ((st.categories ++ [(⟨st.cat_count, n⟩ : UnifiedCategory)]).map
          (fun c => c.name)).Nodup
      rw [List.map_append, List.nodup_append]
      refine ⟨hnames, by simp, ?_⟩
      intro x hx hx2
      simp only [List.map_cons, List.map_nil, List.mem_singleton] at hx2
      rw [hx2] at hx
      exact hnot hx
    · show st.cat2id ++ [(n, st.cat_count)] =
        (st.categories ++ [(⟨st.cat_count, n⟩ : UnifiedCategory)]).map
          (fun c => (c.name, c.id))
      rw [List.map_append, hc2]
      rfl

theorem procExt_refl (img_id : ℕ) (s : Store) : ProcExt img_id s s :=
  ⟨rfl, rfl, [], by simp, by simp⟩

theorem procExt_trans {img_id : ℕ} {s1 s2 s3 : Store}
    (h1 : ProcExt img_id s1 s2) (h2 : ProcExt img_id s2 s3) :
    ProcExt img_id s1 s3 := by
  obtain ⟨hi1, hc1, new1, ha1, hall1⟩ := h1
  obtain ⟨hi2, hc2, new2, ha2, hall2⟩ := h2
  refine ⟨hi2.trans hi1, hc2.trans hc1, new1 ++ new2, ?_, ?_⟩
  · rw [ha2, ha1, List.append_assoc]
  · intro x hx
    rcases List.mem_append.1 hx with h | h
    · exact hall1 x h
    · exact hall2 x h

theorem addRecord_procExt (st : Store) (img_id : ℕ) (n : String) (b : BBox) :
    ProcExt img_id st (addRecord st img_id n b) := by
  obtain ⟨x, hx, hxid⟩ := addRecord_anns st img_id n b
  refine ⟨(addRecord_images st img_id n b).1, (addRecord_images st img_id n b).2,
    [x], hx, ?_⟩
  intro y hy
  rw [List.mem_singleton.1 hy]
  exact hxid

theorem stepShape_foldl {α : Type} (img_id : ℕ) (step : Store → α → Store)
    (hs : StepShape img_id step) :
    ∀ (l : List α) (s : Store), ProcExt img_id s (l.foldl step s) := by
  intro l
  induction l with
  | nil => intro s; exact procExt_refl img_id s
  | cons a rest ih =>
    intro s
    rw [List.foldl_cons]
    rcases hs s a with h | ⟨n, b, h⟩
    · rw [h]
      exact ih s
    · rw [h]
      exact procExt_trans (addRecord_procExt s img_id n b) (ih _)

theorem stepShape_catInv {α : Type} (img_id : ℕ) (step : Store → α → Store)
    (hs : StepShape img_id step) :
    ∀ (l : List α) (s : Store), CatInv s → CatInv (l.foldl step s) := by
  intro l
  induction l with
  | nil => intro s h; exact h
  | cons a rest ih =>
    intro s h
    rw [List.foldl_cons]
    rcases hs s a with he | ⟨n, b, he⟩
    · rw [he]
      exact ih s h
    · rw [he]
      exact ih _ (addRecord_catInv s img_id n b h)

theorem yoloLineStep_shape (img_w img_h : ℕ) (cm : List (ℤ × String))
    (img_id : ℕ) : StepShape img_id (yoloLineStep img_w img_h cm img_id) := by
  intro s line
  simp only [yoloLineStep]
  repeat' split
  all_goals first
    | exact Or.inl rfl
    | exact Or.inr ⟨_, _, rfl⟩

theorem vocObjStep_shape (img_id : ℕ) : StepShape img_id (vocObjStep img_id) := by
  intro s it
  simp only [vocObjStep]
  repeat' split
  all_goals first
    | exact Or.inl rfl
    | exact Or.inr ⟨_, _, rfl⟩

theorem cocoAnnStep_shape (img_id : ℕ) : StepShape img_id (cocoAnnStep img_id) := by
  intro s it
  simp only [cocoAnnStep]
  repeat' split
  all_goals first
    | exact Or.inl rfl
    | exact Or.inr ⟨_, _, rfl⟩

theorem labelmeShapeStep_shape (img_id : ℕ) :
    StepShape img_id (labelmeShapeStep img_id) := by
  intro s it
  simp only [labelmeShapeStep]
  repeat' split
  all_goals first
    | exact Or.inl rfl
    | exact Or.inr ⟨_, _, rfl⟩

theorem hkItemStep_shape (img_id : ℕ) : StepShape img_id (hkItemStep img_id) := by
  intro s it
  simp only [hkItemStep]
  repeat' split
  all_goals first
    | exact Or.inl rfl
    | exact Or.inr ⟨_, _, rfl⟩

theorem processAnns_procExt (s : Store) (img_id img_w img_h : ℕ)
    (inp : FormatInput) :
    ProcExt img_id s (processAnns s img_id img_w img_h inp) := by
  cases inp with
  | yolo cm lines =>
    exact stepShape_foldl img_id _ (yoloLineStep_shape img_w img_h cm img_id) lines s
  | voc objs =>
    cases objs with
    | none => exact procExt_refl img_id s
    | some l => exact stepShape_foldl img_id _ (vocObjStep_shape img_id) l s
  | coco_single items =>
    cases items with
    | none => exact procExt_refl img_id s
    | some l => exact stepShape_foldl img_id _ (cocoAnnStep_shape img_id) l s
  | labelme shapes =>
    cases shapes with
    | none => exact procExt_refl img_id s
    | some l => exact stepShape_foldl img_id _ (labelmeShapeStep_shape img_id) l s
  | hk items =>
    cases items with
    | none => exact procExt_refl img_id s
    | some l => exact stepShape_foldl img_id _ (hkItemStep_shape img_id) l s

theorem processAnns_catInv (s : Store) (img_id img_w img_h : ℕ)
    (inp : FormatInput) (h : CatInv s) :
    CatInv (processAnns s img_id img_w img_h inp) := by
  cases inp with
  | yolo cm lines =>
    exact stepShape_catInv img_id _ (yoloLineStep_shape img_w img_h cm img_id) lines s h
  | voc objs =>
    cases objs with
    | none => exact h
    | some l => exact stepShape_catInv img_id _ (vocObjStep_shape img_id) l s h
  | coco_single items =>
    cases items with
    | none => exact h
    | some l => exact stepShape_catInv img_id _ (cocoAnnStep_shape img_id) l s h
  | labelme shapes =>
    cases shapes with
    | none => exact h
    | some l => exact stepShape_catInv img_id _ (labelmeShapeStep_shape img_id) l s h
  | hk items =>
    cases items with
    | none => exact h
    | some l => exact stepShape_catInv img_id _ (hkItemStep_shape img_id) l s h

theorem addImage_pipeInv (st : Store) (im : ImgInfo) (h : PipeInv st) :
    PipeInv (addImage st im) := by
  obtain ⟨hseq, hinv, hcat⟩ := h
  have hseq2 : st.images.map (fun i => i.id) = List.range st.img_count := hseq
  refine ⟨?_, ?_, hcat⟩
  · show (st.images ++ [(⟨im.file_name, st.img_count, im.width, im.height⟩ :
        UnifiedImage)]).map (fun i => i.id) = List.range (st.img_count + 1)
    rw [List.map_append, hseq2, List.range_succ]
    rfl
  · intro a ha
    obtain ⟨i2, hi2, hid⟩ := hinv a ha
    exact ⟨i2, List.mem_append_left _ hi2, hid⟩

theorem process_file_pair_pipeInv (st : Store) (p : PairInput) (h : PipeInv st) :
    PipeInv (process_file_pair st p) := by
  have h1 := addImage_pipeInv st p.img h
  obtain ⟨hi, hc, new, hanns, hall⟩ :=
    processAnns_procExt (addImage st p.img) st.img_count p.img.width
      p.img.height p.input
  have h3 : CatInv (process_file_pair st p) :=
    processAnns_catInv _ _ _ _ _ h1.2.2
  refine ⟨?_, ?_, h3⟩
  · show (process_file_pair st p).images.map (fun i => i.id) =
      List.range (process_file_pair st p).img_count
    have e1 : (process_file_pair st p).images = (addImage st p.img).images := hi
    have e2 : (process_file_pair st p).img_count = (addImage st p.img).img_count := hc
    rw [e1, e2]
    exact h1.1
  · intro a ha
    have ha2 : a ∈ (addImage st p.img).anns ++ new := by
      rw [← hanns]
      exact ha
    have e1 : (process_file_pair st p).images = (addImage st p.img).images := hi
    rw [e1]
    rcases List.mem_append.1 ha2 with hold | hnew
    · exact h1.2.1 a hold
    · refine ⟨⟨p.img.file_name, st.img_count, p.img.width, p.img.height⟩, ?_, ?_⟩
      · exact List.mem_append_right _ (List.mem_singleton_self _)
      · exact (hall a hnew).symm

theorem runPairs_pipeInv (ps : List PairInput) (s : Store) (h : PipeInv s) :
    PipeInv (runPairs ps s) := by
  induction ps generalizing s with
  | nil => exact h
  | cons p rest ih => exact ih _ (process_file_pair_pipeInv s p h)

theorem addUnmatchedImages_pipeInv (imgs : List ImgInfo) (s : Store)
    (h : PipeInv s) : PipeInv (addUnmatchedImages s imgs) := by
  induction imgs generalizing s with
  | nil => exact h
  | cons im rest ih => exact ih _ (addImage_pipeInv s im h)

theorem emptyStore_pipeInv : PipeInv emptyStore :=
  ⟨rfl, fun a ha => absurd ha (List.not_mem_nil a), rfl, List.nodup_nil, rfl⟩

theorem mem_renumberAnnsFrom {b : UnifiedAnn} (m : List (ℕ × ℕ)) :
    ∀ (k : ℕ) (l : List UnifiedAnn), b ∈ renumberAnnsFrom m k l →
      ∃ (j : ℕ) (hj : j < l.length),
        b = {l.get ⟨j, hj⟩ with
          image_id := (listLookup m ((l.get ⟨j, hj⟩).image_id)).getD 0,
          id := k + j} := by
  intro k l
  induction l generalizing k with
  | nil => intro h; cases h
  | cons a rest ih =>
    intro hb
    rw [renumberAnnsFrom] at hb
    rcases List.mem_cons.1 hb with h | h
    · exact ⟨0, by simp, by simpa using h⟩
    · obtain ⟨j, hj, hbe⟩ := ih (k + 1) h
      refine ⟨j + 1, by simpa using hj, ?_⟩
      have harith : k + (j + 1) = (k + 1) + j := by omega
      have hget : ((a :: rest).get ⟨j + 1, by simpa using hj⟩) =
          rest.get ⟨j, hj⟩ := rfl
      rw [hget, harith]
      exact hbe

theorem renumberImagesFrom_get_mem :
    ∀ (k : ℕ) (l : List UnifiedImage) (i : ℕ) (h : i < l.length),
      ({l.get ⟨i, h⟩ with id := k + i} : UnifiedImage) ∈
        renumberImagesFrom k l := by
  intro k l
  induction l generalizing k with
  | nil => intro i h; simp at h
  | cons a rest ih =>
    intro i h
    cases i with
    | zero =>
      rw [renumberImagesFrom]
      exact List.mem_cons_self _ _
    | succ j =>
      have hj : j < rest.length := by simpa using h
      rw [renumberImagesFrom]
      apply List.mem_cons_of_mem
      have harith : k + (j + 1) = (k + 1) + j := by omega
      have hget : ((a :: rest).get ⟨j + 1, h⟩) = rest.get ⟨j, hj⟩ := rfl
      rw [hget, harith]
      exact ih (k + 1) j hj

theorem check_and_filter_storeInv (st : Store) (thr : ℤ)
    (himg : (st.images.map (fun im => im.id)).Nodup) (hinv : StoreInv st) :
    StoreInv (check_and_filter_small_boxes st thr) := by
  by_cases hsmall : ∃ a ∈ st.anns, annArea a < (thr : ℚ)
  · rw [check_and_filter_of_small st thr hsmall]
    have hkeptnodup : ((keptImages st thr).map (fun im => im.id)).Nodup := by
      have hsub : List.Sublist ((keptImages st thr).map (fun im => im.id))
          (st.images.map (fun im => im.id)) :=
        List.Sublist.map _ (List.filter_sublist _)
      exact hsub.nodup himg
    intro a ha
    rw [remove_small_boxes_anns st thr himg] at ha
    obtain ⟨j, hj, rfl⟩ := mem_renumberAnnsFrom _ 1 _ ha
    have horig : ((validAnns st thr).filter
        (fun a => a.image_id ∈ (keptImages st thr).map (fun im => im.id))).get
          ⟨j, hj⟩ ∈ (validAnns st thr).filter
        (fun a => a.image_id ∈ (keptImages st thr).map (fun im => im.id)) :=
      List.get_mem _ _ _
    have hmem2 : (((validAnns st thr).filter
        (fun a => a.image_id ∈ (keptImages st thr).map (fun im => im.id))).get
          ⟨j, hj⟩).image_id ∈ (keptImages st thr).map (fun im => im.id) :=
      of_decide_eq_true (List.mem_filter.1 horig).2
    obtain ⟨im0, him0, him0id⟩ := List.mem_map.1 hmem2
    obtain ⟨⟨i, hi⟩, hgeti⟩ := List.mem_iff_get.1 him0
    have hlook : listLookup (imageIdMapFrom 1 (keptImages st thr))
        ((((validAnns st thr).filter (fun a => a.image_id ∈
          (keptImages st thr).map (fun im => im.id))).get ⟨j, hj⟩).image_id) =
        some (1 + i) := by
      rw [← him0id, ← hgeti]
      exact listLookup_imageIdMapFrom _ 1 hkeptnodup i hi
    rw [remove_small_boxes_images st thr]
    refine ⟨{(keptImages st thr).get ⟨i, hi⟩ with id := 1 + i},
      renumberImagesFrom_get_mem 1 _ i hi, ?_⟩
    show 1 + i = (listLookup (imageIdMapFrom 1 (keptImages st thr)) _).getD 0
    rw [hlook]
    rfl
  · push_neg at hsmall
    rw [check_and_filter_no_small st thr (fun a ha => not_lt.2 (hsmall a ha))]
    exact hinv

/-- C5: at every stage of the conversion pathway — after each processed
file pair, after the unmatched images are optionally added, and after the
quality filter runs — every annotation's `image_id` equals the id of an
image currently in the store. -/
theorem ann_image_ref_integrity (ps : List PairInput) (unmatched : List ImgInfo)
    (flag : Bool) (thr : ℤ) :
    (∀ n, StoreInv (runPairs (ps.take n) emptyStore)) ∧
    StoreInv (convertStage2 ps unmatched flag) ∧
    StoreInv (check_and_filter_small_boxes (convertStage2 ps unmatched flag) thr) := by
  have hstage2 : PipeInv (convertStage2 ps unmatched flag) := by
    unfold convertStage2
    split
    · exact addUnmatchedImages_pipeInv _ _ (runPairs_pipeInv _ _ emptyStore_pipeInv)
    · exact runPairs_pipeInv _ _ emptyStore_pipeInv
  refine ⟨?_, hstage2.2.1, ?_⟩
  · intro n
    exact (runPairs_pipeInv _ _ emptyStore_pipeInv).2.1
  · apply check_and_filter_storeInv
    · have hseq : (convertStage2 ps unmatched flag).images.map (fun im => im.id) =
        List.range (convertStage2 ps unmatched flag).img_count := hstage2.1
      rw [hseq]
      exact List.nodup_range _
    · exact hstage2.2.1

/-- C6: along the conversion pipeline — whatever mix of the five format
parsers processed the pairs — the category list has no two entries with the
same name, the category ids are exactly 0 … N-1 assigned at first sight in
insertion order, and `cat2id` pairs a name with an id exactly when the
category list holds that row, i.e. it is a bijection between names and ids. -/
theorem category_registration_invariant (ps : List PairInput) :
    ∀ n,
      ((runPairs (ps.take n) emptyStore).categories.map (fun c => c.name)).Nodup ∧
      (runPairs (ps.take n) emptyStore).categories.map (fun c => c.id) =
        List.range (runPairs (ps.take n) emptyStore).categories.length ∧
      (∀ (name : String) (id : ℕ),
        (name, id) ∈ (runPairs (ps.take n) emptyStore).cat2id ↔
          (⟨id, name⟩ : UnifiedCategory) ∈
            (runPairs (ps.take n) emptyStore).categories) := by
  intro n
  obtain ⟨hid, hnames, hc2⟩ :=
    (runPairs_pipeInv (ps.take n) emptyStore emptyStore_pipeInv).2.2
  have hlen : (runPairs (ps.take n) emptyStore).categories.length =
      (runPairs (ps.take n) emptyStore).cat_count := by
    have h2 := congrArg List.length hid
    simpa using h2
  refine ⟨hnames, by rw [hid, hlen], ?_⟩
  intro name id
  rw [hc2]
  constructor
  · intro hmem
    obtain ⟨c, hcmem, hce⟩ := List.mem_map.1 hmem
    have h1 : c.name = name := congrArg Prod.fst hce
    have h2 : c.id = id := congrArg Prod.snd hce
    have hc : c = ⟨id, name⟩ := by
      cases c
      simp_all
    rw [← hc]
    exact hcmem
  · intro hmem
    exact List.mem_map.2 ⟨⟨id, name⟩, hmem, rfl⟩
